import Mathlib

/-!
Verification of the zorya schema-generation engine (OpenAPI/JSON-Schema
registry and builder) against its specification.

The definitions below are a shallow embedding of the Go source:

* `openapi_schema.go`   — schema builder, struct-field merge policy
* `openapi_registry.go` — `mapRegistry.Schema`, `DefaultSchemaNamer`
* `openapi_response.go` — `transformSchemaForFileResponse`
* `metadata/parse_openapi_struct.go`, `metadata/utils.go` — struct-level
  tag parser and `parseBool`

Go pointers of scalar type become `Option`; Go strings keep their zero
value `""`; Go `float64` is modelled by `Rat` (no claim computes with
these values, they are only copied); Go maps become association lists
whose `lookupStr` returns the most recently inserted binding, matching
map-overwrite semantics.  Go `reflect.Type` is modelled by `GoType`,
with the bodies of named struct types held in a type environment
(modelling the struct-metadata cache of the external `talav/schema`
package, which parses tags once per type).  The possibly-diverging
recursion of registry and builder is given fuel; `none` means the fuel
ran out, `some (.error e)` is a Go panic or returned error, and
`some (.ok r)` is normal termination.
-/

set_option autoImplicit false

namespace Zorya

/-- Values of Go type `any` as they occur in schema metadata (enum/const
entries, defaults, examples, extension values): strings, numbers,
booleans or null. -/
inductive Val where
  | str (s : String)
  | num (q : Rat)
  | bool (b : Bool)
  | null
  deriving DecidableEq, Repr

/-- Association-list lookup with Go-map semantics: the most recently
inserted binding for a key wins (insertion is `cons`). -/
def lookupStr {α : Type} : List (String × α) → String → Option α
  | [], _ => none
  | (k, v) :: rest, key => if k = key then some v else lookupStr rest key

/-! ## Field metadata records (the per-namespace annotation records) -/

/-- The naming/location record of the external `schema` package
(`schema.SchemaMetadata`): output parameter name and explicit
required flag, as used by `extractFieldName` / `determineRequired`. -/
structure SchemaMeta where
  paramName : String := ""
  required : Bool := false
  deriving DecidableEq, Repr

/-- Documentation metadata, `metadata.OpenAPIMetadata`. -/
structure OpenAPIMeta where
  readOnly : Option Bool := none
  writeOnly : Option Bool := none
  deprecated : Option Bool := none
  hidden : Option Bool := none
  title : String := ""
  description : String := ""
  format : String := ""
  examples : List Val := []
  extensions : List (String × Val) := []
  deriving DecidableEq, Repr

/-- Validation metadata, `metadata.ValidateMetadata`. -/
structure VMeta where
  minimum : Option Rat := none
  exclusiveMinimum : Option Rat := none
  maximum : Option Rat := none
  exclusiveMaximum : Option Rat := none
  multipleOf : Option Rat := none
  pattern : String := ""
  format : String := ""
  enum : List Val := []
  required : Option Bool := none
  deriving DecidableEq, Repr

/-- Dependent-required metadata, `metadata.DependentRequiredMetadata`. -/
structure DepMeta where
  dependents : List String := []
  deriving DecidableEq, Repr

/-- Default-value metadata, `metadata.DefaultMetadata`. -/
structure DefaultMeta where
  value : Option Val := none
  deriving DecidableEq, Repr

/-- Struct-level metadata, `metadata.OpenAPIStructMetadata`. -/
structure OpenAPIStructMeta where
  additionalProperties : Option Bool := none
  nullable : Option Bool := none
  deriving DecidableEq, Repr

/-- One entry of `schema.StructMetadata.Fields`.  `GetTagMetadata` by
namespace key becomes one `Option` field per namespace.  The reflect
field type fetched in Go through `t.Field(fieldMeta.Index)` is bundled
with the metadata (`FieldDef` below); `index` is kept for fidelity. -/
structure FieldMetadata where
  index : Nat := 0
  structFieldName : String := ""
  schemaMeta : Option SchemaMeta := none
  openapiMeta : Option OpenAPIMeta := none
  validateMeta : Option VMeta := none
  defaultMeta : Option DefaultMeta := none
  depMeta : Option DepMeta := none
  openapiStructMeta : Option OpenAPIStructMeta := none
  deriving DecidableEq, Repr

/-! ## The Schema value -/

/-- String constants of the Go source. -/
def TypeBoolean : String := "boolean"

def TypeInteger : String := "integer"

def TypeNumber : String := "number"

def TypeString : String := "string"

def TypeArray : String := "array"

def TypeObject : String := "object"

def formatInt32 : String := "int32"

def formatInt64 : String := "int64"

def contentEncodingBase64 : String := "base64"

def formatBinary : String := "binary"

/-- Package-level default for array nullability (`DefaultArrayNullable`);
`true` per the e2e tests, which expect `"type": ["array","null"]`. -/
def DefaultArrayNullable : Bool := true

/-- The scalar (non-recursive) fields of the Go `Schema` struct.  The Go
`Type` field is `typ` (`type` is reserved in Lean), `Const` is
`constVal`, `Default` is `defaultVal`.  The recursive fields `Items`,
`Properties` and `AdditionalProperties` live in `Schema` itself. -/
structure SCore where
  typ : String := ""
  ref : String := ""
  format : String := ""
  nullable : Option Bool := none
  contentEncoding : String := ""
  contentMediaType : String := ""
  minimum : Option Rat := none
  maximum : Option Rat := none
  exclusiveMinimum : Option Rat := none
  exclusiveMaximum : Option Rat := none
  multipleOf : Option Rat := none
  minLength : Option Int := none
  maxLength : Option Int := none
  minItems : Option Int := none
  maxItems : Option Int := none
  minProperties : Option Int := none
  maxProperties : Option Int := none
  pattern : String := ""
  title : String := ""
  description : String := ""
  examples : List Val := []
  readOnly : Option Bool := none
  writeOnly : Option Bool := none
  deprecated : Option Bool := none
  hidden : Bool := false
  extensions : List (String × Val) := []
  enum : List Val := []
  constVal : Option Val := none
  defaultVal : Option Val := none
  required : List String := []
  propertyNames : List String := []
  requiredMap : List String := []
  dependentRequired : List (String × List String) := []
  deriving DecidableEq, Repr

/-- The Go `Schema` struct.  `addPropsBool`/`addPropsSchema` together
model the single Go field `AdditionalProperties any`, which holds either
a policy boolean (struct-level option) or a value schema (for maps);
at most one of them is ever set. -/
inductive Schema where
  | mk (core : SCore) (items : Option Schema)
      (properties : List (String × Schema))
      (addPropsBool : Option Bool) (addPropsSchema : Option Schema)
  deriving Repr

def Schema.core : Schema → SCore
  | .mk c _ _ _ _ => c

def Schema.items : Schema → Option Schema
  | .mk _ i _ _ _ => i

def Schema.properties : Schema → List (String × Schema)
  | .mk _ _ p _ _ => p

def Schema.addPropsBool : Schema → Option Bool
  | .mk _ _ _ b _ => b

def Schema.addPropsSchema : Schema → Option Schema
  | .mk _ _ _ _ s => s

def Schema.withCore : Schema → SCore → Schema
  | .mk _ i p b a, c => .mk c i p b a

def Schema.withItems : Schema → Option Schema → Schema
  | .mk c _ p b a, i => .mk c i p b a

def Schema.withProperties : Schema → List (String × Schema) → Schema
  | .mk c i _ b a, p => .mk c i p b a

def Schema.withAddPropsBool : Schema → Option Bool → Schema
  | .mk c i p _ a, b => .mk c i p b a

def Schema.withAddPropsSchema : Schema → Option Schema → Schema
  | .mk c i p b _, a => .mk c i p b a

/-- The zero Go `Schema{}` value. -/
def emptySchema : Schema := .mk {} none [] none none

/-- A bare reference schema, `&Schema{Ref: r}`. -/
def refOnly (r : String) : Schema := .mk { ref := r } none [] none none

@[simp] theorem core_mk (c : SCore) (i : Option Schema)
    (p : List (String × Schema)) (b : Option Bool) (a : Option Schema) :
    (Schema.mk c i p b a).core = c := rfl

@[simp] theorem items_mk (c : SCore) (i : Option Schema)
    (p : List (String × Schema)) (b : Option Bool) (a : Option Schema) :
    (Schema.mk c i p b a).items = i := rfl

@[simp] theorem properties_mk (c : SCore) (i : Option Schema)
    (p : List (String × Schema)) (b : Option Bool) (a : Option Schema) :
    (Schema.mk c i p b a).properties = p := rfl

@[simp] theorem core_withCore (s : Schema) (c : SCore) :
    (s.withCore c).core = c := by cases s; rfl

@[simp] theorem items_withCore (s : Schema) (c : SCore) :
    (s.withCore c).items = s.items := by cases s; rfl

@[simp] theorem properties_withCore (s : Schema) (c : SCore) :
    (s.withCore c).properties = s.properties := by cases s; rfl

@[simp] theorem core_withItems (s : Schema) (i : Option Schema) :
    (s.withItems i).core = s.core := by cases s; rfl

@[simp] theorem items_withItems (s : Schema) (i : Option Schema) :
    (s.withItems i).items = i := by cases s; rfl

@[simp] theorem core_refOnly (r : String) : (refOnly r).core = { ref := r } := rfl

/-! ## The Go type model -/

/-- Go `reflect.Type`, restricted to the kinds the schema engine
handles.  Named struct types are `structRef name` with the body kept in
a type environment, so that self-referential (cyclic) types are
representable.  `time` is `time.Time` (a struct kind with special
handling).  `unsupported` stands for kinds such as `func` or `chan`
for which the builder yields a nil schema.  The `url.URL` / IP-address
entries of `lookUpByType` are omitted: no claim concerns them. -/
inductive GoType where
  | bool | int | int8 | int16 | int32 | int64
  | uint | uint8 | uint16 | uint32 | uint64
  | float32 | float64 | string
  | time
  | iface
  | unsupported
  | ptr (t : GoType)
  | slice (t : GoType)
  | array (n : Nat) (t : GoType)
  | mapOf (elem : GoType)
  | structRef (name : String)
  deriving DecidableEq, Repr

/-- Go `deref`: strip pointers (`openapi_registry.go`). -/
def GoType.derefT : GoType → GoType
  | .ptr t => t.derefT
  | t => t

/-- `reflect.Type.Name()` for the modelled types.  Predeclared scalar
types do have names in Go, but those names are only consumed by the
namer for ref-worthy (struct) types, so they are irrelevant here and
composite/anonymous types give `""`. -/
def goTypeName : GoType → String
  | .structRef n => n
  | .time => "Time"
  | _ => ""

/-- Kind test used for `getsRef` (`t.Kind() == reflect.Struct`):
`time.Time` is itself a struct kind. -/
def GoType.kindIsStruct : GoType → Bool
  | .structRef _ => true
  | .time => true
  | _ => false

def GoType.kindIsSliceOrArray : GoType → Bool
  | .slice _ => true
  | .array _ _ => true
  | _ => false

def GoType.isPtr : GoType → Bool
  | .ptr _ => true
  | _ => false

/-- One struct field as presented by the struct-metadata cache:
the parsed tag metadata together with the reflect field type
(`t.Field(fieldMeta.Index).Type`). -/
structure FieldDef where
  meta : FieldMetadata
  type : GoType
  deriving DecidableEq, Repr

/-- The cached `schema.StructMetadata` of one named struct type, plus
the duck-typed capabilities of the type: `provider` is the fixed schema
returned by a `SchemaProvider` implementation (if any), and
`textUnmarshaler` records whether the type or its pointer implements
`encoding.TextUnmarshaler`. -/
structure StructDef where
  fields : List FieldDef := []
  provider : Option Schema := none
  textUnmarshaler : Bool := false

/-- The type environment: bodies/metadata of the named struct types. -/
def Env : Type := List (String × StructDef)

/-- Whether `reflect.New(t).Interface()` is a `SchemaProvider`. -/
def hasSchemaProvider (env : Env) : GoType → Bool
  | .structRef n =>
    match lookupStr env n with
    | some sd => sd.provider.isSome
    | none => false
  | _ => false

/-- Whether `reflect.New(t).Interface()` is an `encoding.TextUnmarshaler`.
`time.Time` implements it through the pointer receiver
`(*time.Time).UnmarshalText`. -/
def hasTextUnmarshaler (env : Env) : GoType → Bool
  | .structRef n =>
    match lookupStr env n with
    | some sd => sd.textUnmarshaler
    | none => false
  | .time => true
  | _ => false

/-- The fixed schema returned by a `SchemaProvider` type, if any. -/
def providerSchema (env : Env) : GoType → Option Schema
  | .structRef n =>
    match lookupStr env n with
    | some sd => sd.provider
    | none => none
  | _ => none

/-! ## DefaultSchemaNamer -/

/-- Replace every `[]` by `List[`, the `strings.ReplaceAll` step of
`DefaultSchemaNamer` (left to right, non-overlapping). -/
def replaceListBrackets : List Char → List Char
  | '[' :: ']' :: rest => 'L' :: 'i' :: 's' :: 't' :: '[' :: replaceListBrackets rest
  | c :: rest => c :: replaceListBrackets rest
  | [] => []

/-- Split on the separator characters of `DefaultSchemaNamer`
(`[`, `]`, `*`, `,`), dropping empty substrings exactly as
`strings.FieldsFunc` does.  `cur` is the (reversed) current field. -/
def fieldsSepAux : List Char → List Char → List (List Char)
  | [], cur => if cur.isEmpty then [] else [cur.reverse]
  | c :: rest, cur =>
    if c = '[' ∨ c = ']' ∨ c = '*' ∨ c = ',' then
      if cur.isEmpty then fieldsSepAux rest [] else cur.reverse :: fieldsSepAux rest []
    else fieldsSepAux rest (c :: cur)

/-- The segment after the last `.` of a part (Go: split on `.` and take
the final element); the whole part when it has no dot. -/
def afterLastDot (l : List Char) : List Char :=
  l.foldl (fun acc c => if c = '.' then [] else acc ++ [c]) []

/-- Uppercase the first character of a part.  Go decodes the first rune
and applies `strings.ToUpper`; `Char.toUpper` agrees on ASCII, the only
case exercised here. -/
def upperFirst : List Char → List Char
  | c :: rest => c.toUpper :: rest
  | [] => []

/-- The name-rewriting pipeline of `DefaultSchemaNamer`: list-bracket
rewriting, separator splitting, package-path stripping, first character
uppercased, concatenated. -/
def mungeName (name : String) : String :=
  let parts := fieldsSepAux (replaceListBrackets name.data) []
  String.mk ((parts.map fun p => upperFirst (afterLastDot p)).foldl (· ++ ·) [])

/-- `DefaultSchemaNamer` (`openapi_registry.go`): the dereferenced type
name, with the hint as fallback for unnamed types, then the rewriting
pipeline. -/
def defaultSchemaNamer (t : GoType) (hint : String) : String :=
  let name := goTypeName t.derefT
  mungeName (if name = "" then hint else name)

/-! ## Pure builder helpers (`openapi_schema.go`) -/

/-- `applyNullableForScalar`: set nullability on scalar-typed schemas. -/
def applyNullableForScalar (s : SCore) (isPointer : Bool) : SCore :=
  if s.typ = TypeBoolean ∨ s.typ = TypeInteger ∨ s.typ = TypeNumber ∨ s.typ = TypeString then
    { s with nullable := some isPointer }
  else s

/-- The by-kind entry of `lookUpByKind` (cloned before nullability is
applied).  `int`/`uint` take the platform branch of
`schemaForSimpleType`; a 64-bit platform is assumed
(`bits.UintSize = 64`). -/
def lookUpByKind : GoType → Option SCore
  | .bool => some { typ := TypeBoolean }
  | .int8 => some { typ := TypeInteger, format := formatInt32 }
  | .int16 => some { typ := TypeInteger, format := formatInt32 }
  | .int32 => some { typ := TypeInteger, format := formatInt32 }
  | .int64 => some { typ := TypeInteger, format := formatInt64 }
  | .uint8 => some { typ := TypeInteger, format := formatInt32, minimum := some 0 }
  | .uint16 => some { typ := TypeInteger, format := formatInt32, minimum := some 0 }
  | .uint32 => some { typ := TypeInteger, format := formatInt32, minimum := some 0 }
  | .uint64 => some { typ := TypeInteger, format := formatInt64, minimum := some 0 }
  | .float32 => some { typ := TypeNumber, format := "float" }
  | .float64 => some { typ := TypeNumber, format := "double" }
  | .string => some { typ := TypeString }
  | _ => none

/-- `schemaForSimpleType`: exact-type lookup (`time.Time` is a
date-time string) before by-kind lookup, then nullability. -/
def schemaForSimpleType (t : GoType) (isPointer : Bool) : Option Schema :=
  if t = .time then
    some (.mk (applyNullableForScalar { typ := TypeString, format := "date-time" } isPointer) none [] none none)
  else if t = .int then
    some (.mk (applyNullableForScalar { typ := TypeInteger, format := formatInt64 } isPointer) none [] none none)
  else if t = .uint then
    some (.mk (applyNullableForScalar { typ := TypeInteger, format := formatInt64, minimum := some 0 } isPointer) none [] none none)
  else
    match lookUpByKind t with
    | some c => some (.mk (applyNullableForScalar c isPointer) none [] none none)
    | none => none

/-! ## Field-metadata merge policy (`openapi_schema.go`) -/

/-- `extractFieldName`: naming metadata `ParamName`, else the struct
field name. -/
def extractFieldName (m : FieldMetadata) : String :=
  match m.schemaMeta with
  | some sm => sm.paramName
  | none => m.structFieldName

/-- `determineRequired`: hidden fields are never required, else the
naming metadata required flag, else the validation required flag,
else not required. -/
def determineRequired (m : FieldMetadata) : Bool :=
  if (match m.openapiMeta with
      | some om => om.hidden == some true
      | none => false) then
    false
  else if (match m.schemaMeta with
      | some sm => sm.required
      | none => false) then
    true
  else if (match m.validateMeta with
      | some vm => vm.required == some true
      | none => false) then
    true
  else
    false

/-- `applyOpenAPIMetadata`: copy documentation metadata onto the field
schema (no-op when the namespace is absent). -/
def applyOpenAPIMetadata (fs : Schema) (m : FieldMetadata) : Schema :=
  match m.openapiMeta with
  | none => fs
  | some om =>
    fs.withCore { fs.core with
      title := om.title
      description := om.description
      format := om.format
      examples := om.examples
      readOnly := om.readOnly
      writeOnly := om.writeOnly
      deprecated := om.deprecated
      hidden := match om.hidden with
        | some h => h
        | none => fs.core.hidden
      extensions := om.extensions }

/-- Truncation toward zero, Go `int(f)` on a `float64`. -/
def truncRat (q : Rat) : Int :=
  if 0 ≤ q then ⌊q⌋ else -⌊-q⌋

/-- `applyStringMinMax`. -/
def applyStringMinMax (fs : Schema) (vm : VMeta) : Schema :=
  let fs := match vm.minimum with
    | some q => fs.withCore { fs.core with minLength := some (truncRat q) }
    | none => fs
  match vm.maximum with
  | some q => fs.withCore { fs.core with maxLength := some (truncRat q) }
  | none => fs

/-- `applyNumericMinMax`. -/
def applyNumericMinMax (fs : Schema) (vm : VMeta) : Schema :=
  fs.withCore { fs.core with minimum := vm.minimum, maximum := vm.maximum }

/-- `applyArrayMinMax`. -/
def applyArrayMinMax (fs : Schema) (vm : VMeta) : Schema :=
  let fs := match vm.minimum with
    | some q => fs.withCore { fs.core with minItems := some (truncRat q) }
    | none => fs
  match vm.maximum with
  | some q => fs.withCore { fs.core with maxItems := some (truncRat q) }
  | none => fs

/-- `applyObjectMinMax`. -/
def applyObjectMinMax (fs : Schema) (vm : VMeta) : Schema :=
  let fs := match vm.minimum with
    | some q => fs.withCore { fs.core with minProperties := some (truncRat q) }
    | none => fs
  match vm.maximum with
  | some q => fs.withCore { fs.core with maxProperties := some (truncRat q) }
  | none => fs

/-- `applyMinMaxConstraints`: dispatch the bound family on the field
schema kind. -/
def applyMinMaxConstraints (fs : Schema) (vm : VMeta) : Schema :=
  if fs.core.typ = TypeString then applyStringMinMax fs vm
  else if fs.core.typ = TypeInteger ∨ fs.core.typ = TypeNumber then applyNumericMinMax fs vm
  else if fs.core.typ = TypeArray then applyArrayMinMax fs vm
  else if fs.core.typ = TypeObject then applyObjectMinMax fs vm
  else fs

/-- The write through the `target` pointer of `applyEnumConstraints`:
a single enum value becomes `const`, otherwise the `enum` field is
assigned. -/
def applyConstOrEnum (t : Schema) (enumVals : List Val) : Schema :=
  match enumVals with
  | [v] => t.withCore { t.core with constVal := some v }
  | _ => t.withCore { t.core with enum := enumVals }

/-- `applyEnumConstraints`: the target is the items schema when the
field schema is an array with items, else the field schema itself. -/
def applyEnumConstraints (fs : Schema) (vm : VMeta) : Schema :=
  match fs.items, fs.core.typ == TypeArray with
  | some it, true => fs.withItems (some (applyConstOrEnum it vm.enum))
  | some _, false => applyConstOrEnum fs vm.enum
  | none, _ => applyConstOrEnum fs vm.enum

/-- `applyValidateMetadata`: bounds by kind, exclusive bounds,
multiple-of and pattern copied, format only filled when still blank,
then enum/const. -/
def applyValidateMetadata (fs : Schema) (m : FieldMetadata) : Schema :=
  match m.validateMeta with
  | none => fs
  | some vm =>
    let fs := applyMinMaxConstraints fs vm
    let fs := fs.withCore { fs.core with
      exclusiveMinimum := vm.exclusiveMinimum
      exclusiveMaximum := vm.exclusiveMaximum
      multipleOf := vm.multipleOf
      pattern := vm.pattern }
    let fs := if fs.core.format = "" then fs.withCore { fs.core with format := vm.format } else fs
    applyEnumConstraints fs vm

/-- `applyDefaultValue`. -/
def applyDefaultValue (fs : Schema) (m : FieldMetadata) : Schema :=
  match m.defaultMeta with
  | none => fs
  | some dm =>
    match dm.value with
    | none => fs
    | some v => fs.withCore { fs.core with defaultVal := some v }

/-- `applyDependentRequired`: recorded on the object schema, keyed by
the field output name, skipped when absent or empty. -/
def applyDependentRequired (s : Schema) (m : FieldMetadata) (fieldName : String) : Schema :=
  match m.depMeta with
  | none => s
  | some dm =>
    if dm.dependents.isEmpty then s
    else s.withCore { s.core with dependentRequired := (fieldName, dm.dependents) :: s.core.dependentRequired }

/-- The violations collected by `validateDependentRequired`: every
(source field, missing target) pair whose target is not among the
properties.  Go formats each as
`dependent field %s for field %s does not exist`; the pair keeps both
names structurally. -/
def depViolations (s : Schema) (props : List (String × Schema)) : List (String × String) :=
  s.core.dependentRequired.flatMap fun fd =>
    (fd.2.filter fun d => (lookupStr props d).isNone).map fun d => (fd.1, d)

/-- `validateDependentRequired`: succeed when no violation exists, else
fail once with the complete list. -/
def validateDependentRequired (s : Schema) (props : List (String × Schema)) :
    Except (List (String × String)) Unit :=
  if depViolations s props = [] then .ok () else .error (depViolations s props)

/-- `applyStructLevelMetadata`: struct-level options from the sentinel
`_` field.  The result is `none` exactly when Go faults: the source
dereferences `openAPIStructMeta.AdditionalProperties` unconditionally
(`s.AdditionalProperties = *openAPIStructMeta.AdditionalProperties`),
a nil-pointer panic when the option is absent. -/
def applyStructLevelMetadata (s : Schema) (sdef : StructDef) : Option Schema :=
  match sdef.fields.find? (fun f => f.meta.structFieldName = "_") with
  | none => some s
  | some f =>
    match f.meta.openapiStructMeta with
    | none => some s
    | some osm =>
      match osm.additionalProperties with
      | none => none
      | some b =>
        some (((s.withAddPropsBool (some b)).withAddPropsSchema none).withCore
          { s.core with nullable := osm.nullable })

/-! ## Struct-level tag parser (`metadata/parse_openapi_struct.go`) -/

/-- `parseBool` (`metadata/utils.go`): empty means true, `true`/`false`
parse, anything else is `nil`. -/
def parseBool (value : String) : Option Bool :=
  if value = "" then some true
  else if value = "true" then some true
  else if value = "false" then some false
  else none

/-- `ParseOpenAPIStructTag`, modelled on the option list produced by
the external `tagparser.Parse` (a key/value map; unknown keys are
ignored).  The tag-syntax error path of `tagparser` is out of scope. -/
def parseOpenAPIStructTag (opts : List (String × String)) : OpenAPIStructMeta :=
  opts.foldl
    (fun osm kv =>
      if kv.1 = "additionalProperties" then { osm with additionalProperties := parseBool kv.2 }
      else if kv.1 = "nullable" then { osm with nullable := parseBool kv.2 }
      else osm)
    {}

/-! ## Binary-format transform (`openapi_response.go`) -/

/-- `transformSchemaForFileResponse`: rewrite a base64 byte-sequence
schema into the binary-format representation, as a copy
(`sCopy := *s`), never touching the input. -/
def transformSchemaForFileResponse (s : Option Schema) : Option Schema :=
  match s with
  | none => none
  | some s =>
    if s.core.typ = TypeString ∧ s.core.contentEncoding = contentEncodingBase64 then
      some (s.withCore { s.core with contentEncoding := "", format := formatBinary })
    else some s

/-! ## The registry (`openapi_registry.go`) -/

/-- Generation failures.  Go raises the first two as returned errors
wrapped into a registry panic, the third as a runtime nil-pointer panic
and the last as an explicit panic; all of them halt generation. -/
inductive GenError where
  | structMeta (tname : String)
  | depRequired (errs : List (String × String))
  | nilPointer
  | dupName (name : String)
  deriving DecidableEq, Repr

/-- Mutable state of `mapRegistry`: registered schemas by name (values
are `Option Schema` because the Go map holds nilable pointers), the
name-to-type table, the seen set of type identities, and the alias
table.  `inlineOnly` is omitted: it only filters `Map()`. -/
structure RegState where
  schemas : List (String × Option Schema) := []
  types : List (String × GoType) := []
  seen : List GoType := []
  aliases : List (GoType × GoType) := []

/-- Immutable configuration of a `mapRegistry`: ref prefix, naming
strategy and the type environment (struct-metadata cache). -/
structure RegCfg where
  prefixStr : String := "#/components/schemas/"
  namer : GoType → String → String := defaultSchemaNamer
  env : Env := []

/-- The `origType` computation at the top of `mapRegistry.Schema`: a
pointer to an array or slice decays to the array/slice itself,
otherwise the original (possibly pointer) type is kept for naming. -/
def origOf (t0 : GoType) : GoType :=
  if (t0.derefT).kindIsSliceOrArray then t0.derefT else t0

/-- Alias-table lookup, `r.aliases[t]`. -/
def lookupAlias : List (GoType × GoType) → GoType → Option GoType
  | [], _ => none
  | (k, v) :: rest, t => if k = t then some v else lookupAlias rest t

/-- The `getsRef` decision of `mapRegistry.Schema`: plain struct kinds,
except `time.Time` and types with self-schema or text capabilities. -/
def getsRefFor (env : Env) (t : GoType) : Bool :=
  t.kindIsStruct && !(t = .time : Bool) && !hasSchemaProvider env t && !hasTextUnmarshaler env t

/-- Accumulators of `processStructFields`: the object schema under
construction and the property/required collections. -/
structure FieldsAcc where
  s : Schema
  props : List (String × Schema) := []
  propNames : List String := []
  required : List String := []
  requiredMap : List String := []

/-- The straight-line merge applied to one field schema inside the loop
of `processStructFields`: documentation metadata, validation metadata,
the required/nullable correction (a required field whose schema is
currently nullable is forced non-nullable), then the default value. -/
def mergeFieldSchema (fieldRequired : Bool) (fs0 : Schema) (fm : FieldMetadata) : Schema :=
  let fs1 := applyOpenAPIMetadata fs0 fm
  let fs2 := applyValidateMetadata fs1 fm
  let fs3 :=
    if fieldRequired && fs2.core.nullable = some true then
      fs2.withCore { fs2.core with nullable := some false }
    else fs2
  applyDefaultValue fs3 fm

/-- The accumulator update for one processed (non-skipped) field of
`processStructFields`: dependent-required metadata onto the object
schema, the merged schema into the property map, the output name
appended, and the required collections extended when the field is
required. -/
def stepAcc (acc : FieldsAcc) (fd : FieldDef) (fs0 : Schema) : FieldsAcc :=
  let name := extractFieldName fd.meta
  let fieldRequired := determineRequired fd.meta
  { s := applyDependentRequired acc.s fd.meta name
    props := (name, mergeFieldSchema fieldRequired fs0 fd.meta) :: acc.props
    propNames := acc.propNames ++ [name]
    required := if fieldRequired then acc.required ++ [name] else acc.required
    requiredMap := if fieldRequired then name :: acc.requiredMap else acc.requiredMap }

mutual

/-- `mapRegistry.Schema(t, allowRef, hint)`.  Fuel-indexed: `none` is
fuel exhaustion, `some (.error e)` a panic, `some (.ok (s, st))` the
returned schema (nil possible) and the updated registry state. -/
def registrySchema (fuel : Nat) (cfg : RegCfg) (st : RegState) (t0 : GoType)
    (allowRef : Bool) (hint : String) :
    Option (Except GenError (Option Schema × RegState)) :=
  match fuel with
  | 0 => none
  | n + 1 =>
    let t := t0.derefT
    let origType := origOf t0
    match lookupAlias st.aliases t with
    | some ta => registrySchema n cfg st ta allowRef hint
    | none =>
      let getsRef := getsRefFor cfg.env t
      let name := cfg.namer origType hint
      match getsRef, lookupStr st.schemas name with
      | true, some sStored =>
        if t ∈ st.seen then
          if allowRef then some (.ok (some (refOnly (cfg.prefixStr ++ name)), st))
          else some (.ok (sStored, st))
        else some (.error (.dupName name))
      | _, _ =>
        let st1 :=
          if getsRef then
            { st with
              schemas := (name, some emptySchema) :: st.schemas
              types := (name, t) :: st.types
              seen := t :: st.seen }
          else st
        match schemaFromType n cfg st1 origType with
        | none => none
        | some (.error e) => some (.error e)
        | some (.ok (sOpt, st2)) =>
          let st3 :=
            if getsRef then { st2 with schemas := (name, sOpt) :: st2.schemas } else st2
          if getsRef && allowRef then
            some (.ok (some (refOnly (cfg.prefixStr ++ name)), st3))
          else some (.ok (sOpt, st3))

/-- `schemaBuilder.SchemaFromType`/`schemaFromType`: interface
overrides, simple-type tables, then dispatch by kind.  The
`SchemaTransformer` post-hook is omitted (no modelled type implements
it). -/
def schemaFromType (fuel : Nat) (cfg : RegCfg) (st : RegState) (t : GoType) :
    Option (Except GenError (Option Schema × RegState)) :=
  match fuel with
  | 0 => none
  | n + 1 =>
    let isPointer := t.isPtr
    let td := t.derefT
    match providerSchema cfg.env td with
    | some ps => some (.ok (some ps, st))
    | none =>
      if hasTextUnmarshaler cfg.env td then
        some (.ok (some (.mk { typ := TypeString, nullable := some isPointer } none [] none none), st))
      else
        match schemaForSimpleType td isPointer with
        | some s => some (.ok (some s, st))
        | none =>
          match td with
          | .slice _ => schemaForSlice n cfg st td isPointer
          | .array _ _ => schemaForSlice n cfg st td isPointer
          | .mapOf elem =>
            match registrySchema n cfg st elem true (goTypeName td ++ "Value") with
            | none => none
            | some (.error e) => some (.error e)
            | some (.ok (vs, st2)) =>
              some (.ok (some (.mk { typ := TypeObject } none [] none vs), st2))
          | .structRef sn => schemaForStruct n cfg st sn
          | .time => schemaForStruct n cfg st "Time"
          | .iface => some (.ok (some emptySchema, st))
          | _ => some (.ok (none, st))

/-- `schemaForSlice`: the `[]byte` base64 special case, else an array
schema whose items come back through the registry; fixed-size arrays
pin min/max items. -/
def schemaForSlice (fuel : Nat) (cfg : RegCfg) (st : RegState) (t : GoType)
    (isPointer : Bool) :
    Option (Except GenError (Option Schema × RegState)) :=
  match fuel with
  | 0 => none
  | n + 1 =>
    match t with
    | .slice elem =>
      if elem = .uint8 then
        some (.ok (some (.mk
          { typ := TypeString
            contentEncoding := contentEncodingBase64
            contentMediaType := "application/octet-stream"
            nullable := some isPointer } none [] none none), st))
      else
        match registrySchema n cfg st elem true (goTypeName t ++ "Item") with
        | none => none
        | some (.error e) => some (.error e)
        | some (.ok (items, st2)) =>
          some (.ok (some (.mk
            { typ := TypeArray, nullable := some DefaultArrayNullable } items [] none none), st2))
    | .array len elem =>
      if elem = .uint8 then
        some (.ok (some (.mk
          { typ := TypeString
            contentEncoding := contentEncodingBase64
            contentMediaType := "application/octet-stream"
            nullable := some isPointer } none [] none none), st))
      else
        match registrySchema n cfg st elem true (goTypeName t ++ "Item") with
        | none => none
        | some (.error e) => some (.error e)
        | some (.ok (items, st2)) =>
          some (.ok (some (.mk
            { typ := TypeArray, nullable := some DefaultArrayNullable
              minItems := some (len : Int), maxItems := some (len : Int) } items [] none none), st2))
    | _ => some (.ok (none, st))

/-- `schemaForStruct`: fetch struct metadata, process the fields,
validate dependent-required targets, apply struct-level options and
assemble the object schema. -/
def schemaForStruct (fuel : Nat) (cfg : RegCfg) (st : RegState) (sn : String) :
    Option (Except GenError (Option Schema × RegState)) :=
  match fuel with
  | 0 => none
  | n + 1 =>
    match lookupStr cfg.env sn with
    | none => some (.error (.structMeta sn))
    | some sdef =>
      match processStructFields n cfg st sn sdef.fields
          { s := .mk { typ := TypeObject } none [] none none } with
      | none => none
      | some (.error e) => some (.error e)
      | some (.ok (acc, st2)) =>
        match validateDependentRequired acc.s acc.props with
        | .error errs => some (.error (.depRequired errs))
        | .ok _ =>
          match applyStructLevelMetadata acc.s sdef with
          | none => some (.error .nilPointer)
          | some s2 =>
            some (.ok (some ((s2.withProperties acc.props).withCore
              { (s2.withProperties acc.props).core with
                propertyNames := acc.propNames
                required := acc.required
                requiredMap := acc.requiredMap }), st2))

/-- `processStructFields`: per field, compute the output name and
required flag, obtain the field schema through the registry (skipping
the field when it is nil), merge documentation, validation, the
required/nullable correction, the default value and dependent-required
metadata, then record the property. -/
def processStructFields (fuel : Nat) (cfg : RegCfg) (st : RegState) (tname : String)
    (fields : List FieldDef) (acc : FieldsAcc) :
    Option (Except GenError (FieldsAcc × RegState)) :=
  match fuel with
  | 0 => none
  | n + 1 =>
    match fields with
    | [] => some (.ok (acc, st))
    | fd :: rest =>
      match registrySchema n cfg st fd.type true (tname ++ fd.meta.structFieldName ++ "Struct") with
      | none => none
      | some (.error e) => some (.error e)
      | some (.ok (none, st2)) => processStructFields n cfg st2 tname rest acc
      | some (.ok (some fs0, st2)) =>
        processStructFields n cfg st2 tname rest (stepAcc acc fd fs0)

end

/-! ## Helper lemmas on the merge functions -/

theorem core_withProperties (s : Schema) (p : List (String × Schema)) :
    (s.withProperties p).core = s.core := by cases s; rfl

theorem ref_applyOpenAPIMetadata (fs : Schema) (m : FieldMetadata) :
    (applyOpenAPIMetadata fs m).core.ref = fs.core.ref := by
  unfold applyOpenAPIMetadata
  cases m.openapiMeta <;> simp

theorem ref_applyConstOrEnum (t : Schema) (vs : List Val) :
    (applyConstOrEnum t vs).core.ref = t.core.ref := by
  unfold applyConstOrEnum
  cases vs with
  | nil => simp
  | cons v rest => cases rest <;> simp

theorem ref_applyEnumConstraints (fs : Schema) (vm : VMeta) :
    (applyEnumConstraints fs vm).core.ref = fs.core.ref := by
  unfold applyEnumConstraints
  cases h : fs.items with
  | none => simp [ref_applyConstOrEnum]
  | some it => cases (fs.core.typ == TypeArray) <;> simp [ref_applyConstOrEnum]

theorem ref_applyStringMinMax (fs : Schema) (vm : VMeta) :
    (applyStringMinMax fs vm).core.ref = fs.core.ref := by
  unfold applyStringMinMax
  cases vm.minimum <;> cases vm.maximum <;> simp

theorem ref_applyNumericMinMax (fs : Schema) (vm : VMeta) :
    (applyNumericMinMax fs vm).core.ref = fs.core.ref := by
  unfold applyNumericMinMax; simp

theorem ref_applyArrayMinMax (fs : Schema) (vm : VMeta) :
    (applyArrayMinMax fs vm).core.ref = fs.core.ref := by
  unfold applyArrayMinMax
  cases vm.minimum <;> cases vm.maximum <;> simp

theorem ref_applyObjectMinMax (fs : Schema) (vm : VMeta) :
    (applyObjectMinMax fs vm).core.ref = fs.core.ref := by
  unfold applyObjectMinMax
  cases vm.minimum <;> cases vm.maximum <;> simp

theorem ref_applyMinMaxConstraints (fs : Schema) (vm : VMeta) :
    (applyMinMaxConstraints fs vm).core.ref = fs.core.ref := by
  unfold applyMinMaxConstraints
  split
  · exact ref_applyStringMinMax fs vm
  · split
    · exact ref_applyNumericMinMax fs vm
    · split
      · exact ref_applyArrayMinMax fs vm
      · split
        · exact ref_applyObjectMinMax fs vm
        · rfl

theorem ref_applyValidateMetadata (fs : Schema) (m : FieldMetadata) :
    (applyValidateMetadata fs m).core.ref = fs.core.ref := by
  unfold applyValidateMetadata
  cases m.validateMeta with
  | none => rfl
  | some vm =>
    simp only
    rw [ref_applyEnumConstraints]
    split <;> simp [ref_applyMinMaxConstraints]

theorem ref_applyDefaultValue (fs : Schema) (m : FieldMetadata) :
    (applyDefaultValue fs m).core.ref = fs.core.ref := by
  unfold applyDefaultValue
  cases m.defaultMeta with
  | none => rfl
  | some dm => cases h : dm.value <;> simp [h]

theorem nullable_applyDefaultValue (fs : Schema) (m : FieldMetadata) :
    (applyDefaultValue fs m).core.nullable = fs.core.nullable := by
  unfold applyDefaultValue
  cases m.defaultMeta with
  | none => rfl
  | some dm => cases h : dm.value <;> simp [h]

theorem applyEnumConstraints_none (fs : Schema) (vm : VMeta) (h : fs.items = none) :
    applyEnumConstraints fs vm = applyConstOrEnum fs vm.enum := by
  unfold applyEnumConstraints
  rw [h]

theorem applyEnumConstraints_notArray (fs : Schema) (vm : VMeta) (it : Schema)
    (h : fs.items = some it) (h2 : (fs.core.typ == TypeArray) = false) :
    applyEnumConstraints fs vm = applyConstOrEnum fs vm.enum := by
  unfold applyEnumConstraints
  rw [h, h2]

theorem applyEnumConstraints_array (fs : Schema) (vm : VMeta) (it : Schema)
    (h : fs.items = some it) (h2 : (fs.core.typ == TypeArray) = true) :
    applyEnumConstraints fs vm = fs.withItems (some (applyConstOrEnum it vm.enum)) := by
  unfold applyEnumConstraints
  rw [h, h2]

theorem applyConstOrEnum_single (t : Schema) (v : Val) :
    applyConstOrEnum t [v] = t.withCore { t.core with constVal := some v } := by
  unfold applyConstOrEnum; rfl

theorem applyConstOrEnum_many (t : Schema) (vs : List Val) (h : 2 ≤ vs.length) :
    applyConstOrEnum t vs = t.withCore { t.core with enum := vs } := by
  unfold applyConstOrEnum
  match vs with
  | [] => simp at h
  | [v] => simp at h
  | a :: b :: rest => rfl

/-! ## Claim C5 — enum-to-const collapse -/

/-- C5: an enumeration annotation with exactly one value sets `const`
and leaves the `enum` array untouched; two or more values set the
`enum` array and leave `const` untouched; and when the field schema is
an array with an items schema, the constraint is written onto the items
schema while the array schema itself is unchanged. -/
theorem C5_enum_const_collapse :
    (∀ (fs : Schema) (vm : VMeta) (v : Val),
        vm.enum = [v] → ¬(fs.core.typ = TypeArray ∧ fs.items.isSome) →
        (applyEnumConstraints fs vm).core.constVal = some v ∧
        (applyEnumConstraints fs vm).core.enum = fs.core.enum) ∧
    (∀ (fs : Schema) (vm : VMeta),
        2 ≤ vm.enum.length → ¬(fs.core.typ = TypeArray ∧ fs.items.isSome) →
        (applyEnumConstraints fs vm).core.enum = vm.enum ∧
        (applyEnumConstraints fs vm).core.constVal = fs.core.constVal) ∧
    (∀ (fs : Schema) (vm : VMeta) (it : Schema),
        fs.core.typ = TypeArray → fs.items = some it →
        (applyEnumConstraints fs vm).core = fs.core ∧
        (applyEnumConstraints fs vm).items = some (applyConstOrEnum it vm.enum)) ∧
    (∀ (it : Schema) (v : Val),
        (applyConstOrEnum it [v]).core.constVal = some v ∧
        (applyConstOrEnum it [v]).core.enum = it.core.enum) ∧
    (∀ (it : Schema) (vs : List Val), 2 ≤ vs.length →
        (applyConstOrEnum it vs).core.enum = vs ∧
        (applyConstOrEnum it vs).core.constVal = it.core.constVal) := by
  have hself : ∀ (fs : Schema) (vm : VMeta), ¬(fs.core.typ = TypeArray ∧ fs.items.isSome) →
      applyEnumConstraints fs vm = applyConstOrEnum fs vm.enum := by
    intro fs vm hna
    cases hit : fs.items with
    | none => exact applyEnumConstraints_none fs vm hit
    | some it =>
      cases harr : (fs.core.typ == TypeArray) with
      | true => exact absurd ⟨by simpa using harr, by simp [hit]⟩ hna
      | false => exact applyEnumConstraints_notArray fs vm it hit harr
  refine ⟨?_, ?_, ?_, ?_, ?_⟩
  · intro fs vm v hv hna
    rw [hself fs vm hna, hv, applyConstOrEnum_single]
    simp
  · intro fs vm hlen hna
    rw [hself fs vm hna, applyConstOrEnum_many fs vm.enum hlen]
    simp
  · intro fs vm it htyp hit
    rw [applyEnumConstraints_array fs vm it hit (by simpa using htyp)]
    constructor
    · exact core_withItems fs _
    · exact items_withItems fs _
  · intro it v
    rw [applyConstOrEnum_single]
    simp
  · intro it vs hlen
    rw [applyConstOrEnum_many it vs hlen]
    simp

/-- C5 witness: the theorem at concrete inputs, one- and two-value
enumerations on a scalar field schema. -/
theorem C5_enum_const_collapse_witness :
    ((applyEnumConstraints emptySchema { enum := [.str "a"] }).core.constVal = some (.str "a") ∧
      (applyEnumConstraints emptySchema { enum := [.str "a"] }).core.enum = emptySchema.core.enum) ∧
    ((applyEnumConstraints emptySchema { enum := [.str "a", .str "b"] }).core.enum = [.str "a", .str "b"] ∧
      (applyEnumConstraints emptySchema { enum := [.str "a", .str "b"] }).core.constVal = emptySchema.core.constVal) := by
  constructor
  · exact C5_enum_const_collapse.1 emptySchema { enum := [.str "a"] } (.str "a") rfl
      (by simp [emptySchema, TypeArray])
  · exact C5_enum_const_collapse.2.1 emptySchema { enum := [.str "a", .str "b"] } (by simp)
      (by simp [emptySchema, TypeArray])

theorem mem_depViolations (s : Schema) (props : List (String × Schema)) (f d : String) :
    (f, d) ∈ depViolations s props ↔
      ∃ deps, (f, deps) ∈ s.core.dependentRequired ∧ d ∈ deps ∧
        (lookupStr props d).isNone := by
  unfold depViolations
  simp only [List.mem_flatMap, List.mem_map, List.mem_filter]
  constructor
  · rintro ⟨⟨f0, deps⟩, hmem, d0, ⟨hd0, hnone⟩, heq⟩
    cases heq
    exact ⟨deps, hmem, hd0, by simpa using hnone⟩
  · rintro ⟨deps, hmem, hd, hnone⟩
    exact ⟨(f, deps), hmem, d, ⟨hd, by simpa using hnone⟩, rfl⟩

theorem depViolations_eq_nil (s : Schema) (props : List (String × Schema)) :
    depViolations s props = [] ↔
      ∀ fd ∈ s.core.dependentRequired, ∀ d ∈ fd.2, (lookupStr props d).isSome := by
  unfold depViolations
  rw [List.flatMap_eq_nil_iff]
  constructor
  · intro h fd hfd d hd
    have := h fd hfd
    rw [List.map_eq_nil_iff, List.filter_eq_nil_iff] at this
    have := this d hd
    simp only [decide_eq_true_eq] at this
    rw [Option.isSome_iff_ne_none]
    simpa using this
  · intro h fd hfd
    rw [List.map_eq_nil_iff, List.filter_eq_nil_iff]
    intro d hd
    have := h fd hfd d hd
    rw [Option.isSome_iff_ne_none] at this
    simpa using this

/-! ## Claim C6 — dependent-required validation -/

/-- C6: after all fields are processed, validation of the
dependent-required targets succeeds exactly when every target exists
among the generated properties; on failure the single combined error
carries exactly the (source field, missing target) pairs of all
violations, and `schemaForStruct` fails with that combined error. -/
theorem C6_dependent_required_validation :
    (∀ (s : Schema) (props : List (String × Schema)),
        validateDependentRequired s props = .ok () ↔
          ∀ fd ∈ s.core.dependentRequired, ∀ d ∈ fd.2, (lookupStr props d).isSome) ∧
    (∀ (s : Schema) (props : List (String × Schema)) (f d : String),
        (f, d) ∈ depViolations s props ↔
          ∃ deps, (f, deps) ∈ s.core.dependentRequired ∧ d ∈ deps ∧
            (lookupStr props d).isNone) ∧
    (∀ (s : Schema) (props : List (String × Schema)) (errs : List (String × String)),
        validateDependentRequired s props = .error errs →
          errs = depViolations s props ∧ errs ≠ []) ∧
    (∀ (n : Nat) (cfg : RegCfg) (st st2 : RegState) (sn : String) (sdef : StructDef)
        (acc : FieldsAcc) (errs : List (String × String)),
        lookupStr cfg.env sn = some sdef →
        processStructFields n cfg st sn sdef.fields
          { s := .mk { typ := TypeObject } none [] none none } = some (.ok (acc, st2)) →
        validateDependentRequired acc.s acc.props = .error errs →
        schemaForStruct (n + 1) cfg st sn = some (.error (.depRequired errs))) := by
  refine ⟨?_, ?_, ?_, ?_⟩
  · intro s props
    unfold validateDependentRequired
    rw [← depViolations_eq_nil]
    split
    · rename_i h; simp [h]
    · rename_i h; simp [h]
  · exact mem_depViolations
  · intro s props errs h
    unfold validateDependentRequired at h
    split at h
    · exact absurd h (by simp)
    · rename_i hne
      constructor
      · injection h with h2; exact h2.symm
      · injection h with h2
        exact fun hc => hne (h2.trans hc)
  · intro n cfg st st2 sn sdef acc errs hlook hproc hval
    unfold schemaForStruct
    simp only [hlook, hproc, hval]

/-- C6 witness inputs: a struct whose `payment_method` field declares a
dependent-required target `missing` that is not among the properties. -/
def c6W_cfg : RegCfg :=
  { env := [("P",
      { fields := [
          { meta := { structFieldName := "PaymentMethod"
                      schemaMeta := some { paramName := "payment_method" }
                      depMeta := some { dependents := ["billing_address", "missing"] } }
            type := .string },
          { meta := { structFieldName := "BillingAddress"
                      schemaMeta := some { paramName := "billing_address" } }
            type := .string }] })] }

def c6W_sdef : StructDef :=
  { fields := [
      { meta := { structFieldName := "PaymentMethod"
                  schemaMeta := some { paramName := "payment_method" }
                  depMeta := some { dependents := ["billing_address", "missing"] } }
        type := .string },
      { meta := { structFieldName := "BillingAddress"
                  schemaMeta := some { paramName := "billing_address" } }
        type := .string }] }

def c6W_run : Option (Except GenError (FieldsAcc × RegState)) :=
  processStructFields 6 c6W_cfg {} "P" c6W_sdef.fields
    { s := .mk { typ := TypeObject } none [] none none }

def c6W_acc : FieldsAcc :=
  match c6W_run with
  | some (.ok (acc, _)) => acc
  | _ => { s := emptySchema }

def c6W_st : RegState :=
  match c6W_run with
  | some (.ok (_, st)) => st
  | _ => {}

/-- C6 witness: the concrete struct fails generation with the combined
error naming the source field and the missing target. -/
theorem C6_dependent_required_validation_witness :
    schemaForStruct 7 c6W_cfg {} "P" =
      some (.error (.depRequired [("payment_method", "missing")])) :=
  C6_dependent_required_validation.2.2.2 6 c6W_cfg {} c6W_st "P" c6W_sdef c6W_acc
    [("payment_method", "missing")] rfl rfl rfl

/-! ## Claim C7 — byte-sequence default and binary-format transform -/

/-- C7: a `[]byte` field yields the base64 string schema with the
octet-stream media type; the binary-format transform rewrites any such
schema into a copy with `format: binary`, an emptied content encoding
and the rest of the schema unchanged (the equation shows the result is
a patch of the input, built without mutating it); composing the two on
the default byte-sequence schema gives exactly the binary variant. -/
theorem C7_byte_slice_binary :
    (∀ (n : Nat) (cfg : RegCfg) (st : RegState) (isPointer : Bool),
        schemaForSlice (n + 1) cfg st (.slice .uint8) isPointer =
          some (.ok (some (.mk
            { typ := TypeString
              contentEncoding := contentEncodingBase64
              contentMediaType := "application/octet-stream"
              nullable := some isPointer } none [] none none), st))) ∧
    (∀ s : Schema,
        s.core.typ = TypeString → s.core.contentEncoding = contentEncodingBase64 →
        transformSchemaForFileResponse (some s) =
          some (s.withCore { s.core with contentEncoding := "", format := formatBinary })) ∧
    (transformSchemaForFileResponse (some (.mk
        { typ := TypeString
          contentEncoding := contentEncodingBase64
          contentMediaType := "application/octet-stream"
          nullable := some false } none [] none none)) =
      some (.mk
        { typ := TypeString
          format := formatBinary
          contentMediaType := "application/octet-stream"
          nullable := some false } none [] none none)) := by
  refine ⟨?_, ?_, ?_⟩
  · intro n cfg st isPointer
    unfold schemaForSlice
    simp
  · intro s h1 h2
    unfold transformSchemaForFileResponse
    simp [h1, h2]
  · rfl

/-- C7 witness: the byte-sequence default at concrete fuel, and the
transform applied to it. -/
theorem C7_byte_slice_binary_witness :
    schemaForSlice 1 {} {} (.slice .uint8) false =
      some (.ok (some (.mk
        { typ := TypeString
          contentEncoding := contentEncodingBase64
          contentMediaType := "application/octet-stream"
          nullable := some false } none [] none none), ({} : RegState))) ∧
    transformSchemaForFileResponse (some (.mk
        { typ := TypeString
          contentEncoding := contentEncodingBase64
          contentMediaType := "application/octet-stream"
          nullable := some false } none [] none none)) =
      some ((Schema.mk
        { typ := TypeString
          contentEncoding := contentEncodingBase64
          contentMediaType := "application/octet-stream"
          nullable := some false } none [] none none).withCore
        { (Schema.mk
            { typ := TypeString
              contentEncoding := contentEncodingBase64
              contentMediaType := "application/octet-stream"
              nullable := some false } none [] none none).core with
          contentEncoding := "", format := formatBinary }) :=
  ⟨C7_byte_slice_binary.1 0 {} {} false,
    C7_byte_slice_binary.2.1 _ rfl rfl⟩

/-! ## Claim C10 — struct-level options fault on absent additionalProperties -/

/-- C10 inputs: the parsed record of `openapiStruct:"nullable=true"`
attached to the sentinel `_` field (its Go field type `struct{}` is
irrelevant to `applyStructLevelMetadata`). -/
def c10W_sdef : StructDef :=
  { fields := [
      { meta := { structFieldName := "_"
                  openapiStructMeta := some (parseOpenAPIStructTag [("nullable", "true")]) }
        type := .unsupported }] }

/-- C10: the claim says applying struct-level options never faults when
the additional-properties option is absent; the code does fault.
Parsing `nullable=true` leaves `AdditionalProperties` nil, and
`applyStructLevelMetadata` then dereferences that nil pointer (`none`
models the Go runtime panic), so `schemaForStruct` on such a struct
halts instead of producing a schema. -/
theorem C10_struct_level_nil_fault :
    parseOpenAPIStructTag [("nullable", "true")] =
      { additionalProperties := none, nullable := some true } ∧
    applyStructLevelMetadata (.mk { typ := TypeObject } none [] none none) c10W_sdef = none ∧
    schemaForStruct 5 { env := [("T", c10W_sdef)] } {} "T" = some (.error .nilPointer) :=
  ⟨rfl, rfl, rfl⟩

/-! ## Step equations of the fueled loop -/

theorem processStructFields_zero (cfg : RegCfg) (st : RegState) (tname : String)
    (fields : List FieldDef) (acc : FieldsAcc) :
    processStructFields 0 cfg st tname fields acc = none := rfl

theorem processStructFields_nil (n : Nat) (cfg : RegCfg) (st : RegState)
    (tname : String) (acc : FieldsAcc) :
    processStructFields (n + 1) cfg st tname [] acc = some (.ok (acc, st)) := rfl

theorem processStructFields_cons (n : Nat) (cfg : RegCfg) (st : RegState)
    (tname : String) (fd : FieldDef) (rest : List FieldDef) (acc : FieldsAcc) :
    processStructFields (n + 1) cfg st tname (fd :: rest) acc =
      match registrySchema n cfg st fd.type true (tname ++ fd.meta.structFieldName ++ "Struct") with
      | none => none
      | some (.error e) => some (.error e)
      | some (.ok (none, st2)) => processStructFields n cfg st2 tname rest acc
      | some (.ok (some fs0, st2)) =>
          processStructFields n cfg st2 tname rest (stepAcc acc fd fs0) := rfl

/-- The names ever appended to the required list are determined by the
per-field data: required names of the final accumulator are either
already present or belong to a required field of the list. -/
theorem processStructFields_required_notMem (name : String) :
    ∀ (fields : List FieldDef) (n : Nat) (cfg : RegCfg) (st st2 : RegState)
      (tname : String) (acc accF : FieldsAcc),
      processStructFields n cfg st tname fields acc = some (.ok (accF, st2)) →
      name ∉ acc.required →
      (∀ fd ∈ fields, extractFieldName fd.meta = name → determineRequired fd.meta = false) →
      name ∉ accF.required := by
  intro fields
  induction fields with
  | nil =>
    intro n cfg st st2 tname acc accF h hnot _
    cases n with
    | zero => simp [processStructFields_zero] at h
    | succ m =>
      rw [processStructFields_nil] at h
      injection h with h
      injection h with h
      injection h with h1 h2
      rw [← h1]
      exact hnot
  | cons fd rest ih =>
    intro n cfg st st2 tname acc accF h hnot hflds
    cases n with
    | zero => simp [processStructFields_zero] at h
    | succ m =>
      rw [processStructFields_cons] at h
      split at h
      · exact absurd h (by simp)
      · exact absurd h (by simp)
      · exact ih m cfg _ st2 tname acc accF h hnot
          (fun fd2 hm => hflds fd2 (List.mem_cons_of_mem fd hm))
      · rename_i fs0 stM heq
        refine ih m cfg _ st2 tname _ accF h ?_
          (fun fd2 hm => hflds fd2 (List.mem_cons_of_mem fd hm))
        unfold stepAcc
        simp only
        by_cases hname : extractFieldName fd.meta = name
        · have hreq : determineRequired fd.meta = false :=
            hflds fd (List.mem_cons_self fd rest) hname
          rw [hreq]
          simpa using hnot
        · by_cases hreq : determineRequired fd.meta = true
          · rw [hreq]
            simp only [if_pos rfl]
            intro hc
            rcases List.mem_append.mp hc with hc2 | hc2
            · exact hnot hc2
            · have hx : name = extractFieldName fd.meta := by simpa using hc2
              exact hname hx.symm
          · simp only [Bool.not_eq_true] at hreq
            rw [hreq]
            simpa using hnot

/-! ## Claim C4 — required priority and hidden fields -/

/-- C4: the required flag obeys the priority hidden (never required)
over the naming metadata required flag over the validation required
flag over the default false; consequently the output name of a hidden
field (unique among the output names) never enters the generated
required list. -/
theorem C4_required_priority :
    (∀ (m : FieldMetadata) (om : OpenAPIMeta),
        m.openapiMeta = some om → om.hidden = some true →
        determineRequired m = false) ∧
    (∀ m : FieldMetadata,
        ¬(∃ om, m.openapiMeta = some om ∧ om.hidden = some true) →
        ((∃ sm, m.schemaMeta = some sm ∧ sm.required = true) →
            determineRequired m = true) ∧
        ((¬∃ sm, m.schemaMeta = some sm ∧ sm.required = true) →
          ((∃ vm, m.validateMeta = some vm ∧ vm.required = some true) →
              determineRequired m = true) ∧
          ((¬∃ vm, m.validateMeta = some vm ∧ vm.required = some true) →
              determineRequired m = false))) ∧
    (∀ (fields : List FieldDef) (n : Nat) (cfg : RegCfg) (st st2 : RegState)
        (tname : String) (s0 : Schema) (accF : FieldsAcc) (fd : FieldDef) (om : OpenAPIMeta),
        processStructFields n cfg st tname fields { s := s0 } = some (.ok (accF, st2)) →
        fd ∈ fields → fd.meta.openapiMeta = some om → om.hidden = some true →
        (∀ fd2 ∈ fields, fd2 ≠ fd → extractFieldName fd2.meta ≠ extractFieldName fd.meta) →
        extractFieldName fd.meta ∉ accF.required) := by
  have hhidFalse : ∀ (m : FieldMetadata) (om : OpenAPIMeta),
      m.openapiMeta = some om → om.hidden = some true → determineRequired m = false := by
    intro m om hom hhid
    unfold determineRequired
    rw [hom]
    simp [hhid]
  refine ⟨hhidFalse, ?_, ?_⟩
  · intro m hno
    have h1 : (match m.openapiMeta with
        | some om => om.hidden == some true
        | none => false) = false := by
      cases hom : m.openapiMeta with
      | none => rfl
      | some om =>
        simp only [beq_iff_eq]
        by_cases hh : om.hidden = some true
        · exact absurd ⟨om, hom, hh⟩ hno
        · simpa using hh
    constructor
    · rintro ⟨sm, hsm, hreq⟩
      unfold determineRequired
      rw [h1, hsm]
      simp [hreq]
    · intro hnosm
      have h2 : (match m.schemaMeta with
          | some sm => sm.required
          | none => false) = false := by
        cases hsm : m.schemaMeta with
        | none => rfl
        | some sm =>
          by_cases hr : sm.required = true
          · exact absurd ⟨sm, hsm, hr⟩ hnosm
          · simpa using hr
      constructor
      · rintro ⟨vm, hvm, hreq⟩
        unfold determineRequired
        rw [h1, h2, hvm]
        simp [hreq]
      · intro hnovm
        have h3 : (match m.validateMeta with
            | some vm => vm.required == some true
            | none => false) = false := by
          cases hvm : m.validateMeta with
          | none => rfl
          | some vm =>
            simp only [beq_iff_eq]
            by_cases hr : vm.required = some true
            · exact absurd ⟨vm, hvm, hr⟩ hnovm
            · simpa using hr
        unfold determineRequired
        rw [h1, h2, h3]
        simp
  · intro fields n cfg st st2 tname s0 accF fd om hproc hmem hom hhid huniq
    refine processStructFields_required_notMem (extractFieldName fd.meta) fields n cfg st st2
      tname _ accF hproc (by simp) ?_
    intro fd2 hm2 hname
    by_cases heq : fd2 = fd
    · rw [heq]
      exact hhidFalse fd.meta om hom hhid
    · exact absurd hname (huniq fd2 hm2 heq)

/-- C4 witness inputs: a hidden field that also carries a
required-producing naming annotation. -/
def c4W_fields : List FieldDef :=
  [{ meta := { structFieldName := "Secret"
               schemaMeta := some { paramName := "secret", required := true }
               openapiMeta := some { hidden := some true } }
     type := .string }]

def c4W_run : Option (Except GenError (FieldsAcc × RegState)) :=
  processStructFields 4 {} {} "T" c4W_fields
    { s := .mk { typ := TypeObject } none [] none none }

def c4W_acc : FieldsAcc :=
  match c4W_run with
  | some (.ok (acc, _)) => acc
  | _ => { s := emptySchema }

def c4W_st : RegState :=
  match c4W_run with
  | some (.ok (_, st)) => st
  | _ => {}

/-- C4 witness: a hidden field annotated `required` is not required and
its name stays out of the generated required list. -/
theorem C4_required_priority_witness :
    determineRequired { structFieldName := "Secret"
                        schemaMeta := some { paramName := "secret", required := true }
                        openapiMeta := some ({ hidden := some true } : OpenAPIMeta) } = false ∧
    "secret" ∉ c4W_acc.required :=
  ⟨C4_required_priority.1 _ { hidden := some true } rfl rfl,
    C4_required_priority.2.2 c4W_fields 4 {} {} c4W_st "T"
      (.mk { typ := TypeObject } none [] none none) c4W_acc
      { meta := { structFieldName := "Secret"
                  schemaMeta := some { paramName := "secret", required := true }
                  openapiMeta := some { hidden := some true } }
        type := .string }
      { hidden := some true } rfl (by simp [c4W_fields]) rfl rfl
      (by intro fd2 hm2 hne; simp [c4W_fields] at hm2; exact absurd hm2 hne)⟩

/-! ## Claim C3 — required/nullable exclusivity -/

/-- A required field schema is never nullable after the merge sequence:
the correction runs after the documentation and validation merges, and
the default-value application that follows cannot reintroduce
nullability. -/
theorem nullable_mergeFieldSchema_required (fs0 : Schema) (m : FieldMetadata) :
    (mergeFieldSchema true fs0 m).core.nullable ≠ some true := by
  unfold mergeFieldSchema
  simp only
  rw [nullable_applyDefaultValue]
  by_cases h : (applyValidateMetadata (applyOpenAPIMetadata fs0 m) m).core.nullable = some true
  · rw [if_pos (by simp [h])]
    simp
  · rw [if_neg (by simp [h])]
    exact h

/-- Lookup is unchanged by entries under other keys. -/
theorem lookupStr_cons_ne {α : Type} (k : String) (v : α) (l : List (String × α))
    (name : String) (h : k ≠ name) :
    lookupStr ((k, v) :: l) name = lookupStr l name := by
  simp [lookupStr, h]

theorem lookupStr_cons_eq {α : Type} (k : String) (v : α) (l : List (String × α)) :
    lookupStr ((k, v) :: l) k = some v := by
  simp [lookupStr]

/-- Property schemas recorded under a name whose fields are all
required stay non-nullable through the loop. -/
theorem processStructFields_props_nullable (name : String) :
    ∀ (fields : List FieldDef) (n : Nat) (cfg : RegCfg) (st st2 : RegState)
      (tname : String) (acc accF : FieldsAcc),
      processStructFields n cfg st tname fields acc = some (.ok (accF, st2)) →
      (∀ s, lookupStr acc.props name = some s → s.core.nullable ≠ some true) →
      (∀ fd ∈ fields, extractFieldName fd.meta = name → determineRequired fd.meta = true) →
      ∀ s, lookupStr accF.props name = some s → s.core.nullable ≠ some true := by
  intro fields
  induction fields with
  | nil =>
    intro n cfg st st2 tname acc accF h hacc _
    cases n with
    | zero => simp [processStructFields_zero] at h
    | succ m =>
      rw [processStructFields_nil] at h
      injection h with h
      injection h with h
      injection h with h1 h2
      rw [← h1]
      exact hacc
  | cons fd rest ih =>
    intro n cfg st st2 tname acc accF h hacc hflds
    cases n with
    | zero => simp [processStructFields_zero] at h
    | succ m =>
      rw [processStructFields_cons] at h
      split at h
      · exact absurd h (by simp)
      · exact absurd h (by simp)
      · exact ih m cfg _ st2 tname acc accF h hacc
          (fun fd2 hm => hflds fd2 (List.mem_cons_of_mem fd hm))
      · rename_i fs0 stM heq
        refine ih m cfg _ st2 tname _ accF h ?_
          (fun fd2 hm => hflds fd2 (List.mem_cons_of_mem fd hm))
        unfold stepAcc
        simp only
        by_cases hname : extractFieldName fd.meta = name
        · have hreq : determineRequired fd.meta = true :=
            hflds fd (List.mem_cons_self fd rest) hname
          intro s hs
          rw [← hname, lookupStr_cons_eq] at hs
          injection hs with hs
          rw [← hs, hreq]
          exact nullable_mergeFieldSchema_required fs0 fd.meta
        · intro s hs
          rw [lookupStr_cons_ne _ _ _ _ hname] at hs
          exact hacc s hs

/-- C3: a field computed as required never carries `nullable: true` in
the resulting property map — the correction runs after the
documentation and validation merges and (through the merge sequence,
whose only later step is the default value) before the field is added;
the second part lifts this to the final property map of the loop, for
output names all of whose carriers are required. -/
theorem C3_required_not_nullable :
    (∀ (fs0 : Schema) (m : FieldMetadata),
        determineRequired m = true →
        (mergeFieldSchema (determineRequired m) fs0 m).core.nullable ≠ some true) ∧
    (∀ (fields : List FieldDef) (n : Nat) (cfg : RegCfg) (st st2 : RegState)
        (tname : String) (s0 : Schema) (accF : FieldsAcc) (fd : FieldDef),
        processStructFields n cfg st tname fields { s := s0 } = some (.ok (accF, st2)) →
        fd ∈ fields → determineRequired fd.meta = true →
        (∀ fd2 ∈ fields, extractFieldName fd2.meta = extractFieldName fd.meta →
          determineRequired fd2.meta = true) →
        ∀ s, lookupStr accF.props (extractFieldName fd.meta) = some s →
          s.core.nullable ≠ some true) := by
  constructor
  · intro fs0 m hreq
    rw [hreq]
    exact nullable_mergeFieldSchema_required fs0 m
  · intro fields n cfg st st2 tname s0 accF fd hproc hmem hreq hall
    exact processStructFields_props_nullable (extractFieldName fd.meta) fields n cfg st st2
      tname _ accF hproc (by intro s hs; simp [lookupStr] at hs) hall

/-- C3 witness inputs: a required pointer field, whose built schema is
nullable before the correction. -/
def c3W_fields : List FieldDef :=
  [{ meta := { structFieldName := "Age"
               schemaMeta := some { paramName := "age", required := true } }
     type := .ptr .int }]

def c3W_run : Option (Except GenError (FieldsAcc × RegState)) :=
  processStructFields 4 {} {} "T" c3W_fields
    { s := .mk { typ := TypeObject } none [] none none }

def c3W_acc : FieldsAcc :=
  match c3W_run with
  | some (.ok (acc, _)) => acc
  | _ => { s := emptySchema }

def c3W_st : RegState :=
  match c3W_run with
  | some (.ok (_, st)) => st
  | _ => {}

def c3W_schema : Schema :=
  match lookupStr c3W_acc.props "age" with
  | some s => s
  | none => emptySchema

/-- C3 witness: the required pointer field lands in the property map
with nullability forced off. -/
theorem C3_required_not_nullable_witness :
    c3W_schema.core.nullable ≠ some true :=
  C3_required_not_nullable.2 c3W_fields 4 {} {} c3W_st "T"
    (.mk { typ := TypeObject } none [] none none) c3W_acc
    { meta := { structFieldName := "Age"
                schemaMeta := some { paramName := "age", required := true } }
      type := .ptr .int }
    rfl (by simp [c3W_fields]) rfl
    (by
      intro fd2 hm2 _
      simp only [c3W_fields, List.mem_singleton] at hm2
      rw [hm2]
      rfl)
    c3W_schema rfl

/-! ## Step equations of the registry -/

theorem registrySchema_zero (cfg : RegCfg) (st : RegState) (t0 : GoType)
    (allowRef : Bool) (hint : String) :
    registrySchema 0 cfg st t0 allowRef hint = none := rfl

theorem registrySchema_succ (n : Nat) (cfg : RegCfg) (st : RegState) (t0 : GoType)
    (allowRef : Bool) (hint : String) :
    registrySchema (n + 1) cfg st t0 allowRef hint =
      match lookupAlias st.aliases t0.derefT with
      | some ta => registrySchema n cfg st ta allowRef hint
      | none =>
        match getsRefFor cfg.env t0.derefT, lookupStr st.schemas (cfg.namer (origOf t0) hint) with
        | true, some sStored =>
          if t0.derefT ∈ st.seen then
            if allowRef then
              some (.ok (some (refOnly (cfg.prefixStr ++ cfg.namer (origOf t0) hint)), st))
            else some (.ok (sStored, st))
          else some (.error (.dupName (cfg.namer (origOf t0) hint)))
        | _, _ =>
          let st1 :=
            if getsRefFor cfg.env t0.derefT then
              { st with
                schemas := (cfg.namer (origOf t0) hint, some emptySchema) :: st.schemas
                types := (cfg.namer (origOf t0) hint, t0.derefT) :: st.types
                seen := t0.derefT :: st.seen }
            else st
          match schemaFromType n cfg st1 (origOf t0) with
          | none => none
          | some (.error e) => some (.error e)
          | some (.ok (sOpt, st2)) =>
            let st3 :=
              if getsRefFor cfg.env t0.derefT then
                { st2 with schemas := (cfg.namer (origOf t0) hint, sOpt) :: st2.schemas }
              else st2
            if getsRefFor cfg.env t0.derefT && allowRef then
              some (.ok (some (refOnly (cfg.prefixStr ++ cfg.namer (origOf t0) hint)), st3))
            else some (.ok (sOpt, st3)) := rfl

/-- A ref-worthy type whose name is registered and whose identity is in
the seen set returns a bare reference (the recursion short-circuit). -/
theorem registrySchema_registered_ref (n : Nat) (cfg : RegCfg) (st : RegState)
    (t0 : GoType) (hint : String) (sStored : Option Schema)
    (halias : lookupAlias st.aliases t0.derefT = none)
    (hgr : getsRefFor cfg.env t0.derefT = true)
    (hlook : lookupStr st.schemas (cfg.namer (origOf t0) hint) = some sStored)
    (hseen : t0.derefT ∈ st.seen) :
    registrySchema (n + 1) cfg st t0 true hint =
      some (.ok (some (refOnly (cfg.prefixStr ++ cfg.namer (origOf t0) hint)), st)) := by
  rw [registrySchema_succ, halias]
  simp [hgr, hlook, if_pos hseen]

/-- A ref-worthy type whose name is registered but whose identity has
never been seen panics with the duplicate-name error. -/
theorem registrySchema_dupName (n : Nat) (cfg : RegCfg) (st : RegState)
    (t0 : GoType) (allowRef : Bool) (hint : String) (sStored : Option Schema)
    (halias : lookupAlias st.aliases t0.derefT = none)
    (hgr : getsRefFor cfg.env t0.derefT = true)
    (hlook : lookupStr st.schemas (cfg.namer (origOf t0) hint) = some sStored)
    (hseen : t0.derefT ∉ st.seen) :
    registrySchema (n + 1) cfg st t0 allowRef hint =
      some (.error (.dupName (cfg.namer (origOf t0) hint))) := by
  rw [registrySchema_succ, halias]
  simp only [hgr, hlook, if_neg hseen]

/-! ## Claim C2 — name collisions -/

/-- C2 counterexample configuration: two distinct struct types; the
replaceable naming strategy names `Foo` as `N` always and names other
types by the caller hint (mirroring `DefaultSchemaNamer`, which uses
the hint for unnamed types). -/
def c2X_cfg : RegCfg :=
  { namer := fun t hint => if t = .structRef "Foo" then "N" else hint
    env := [("Foo", {}), ("Bar", {})] }

def c2X_st1 : RegState :=
  match registrySchema 10 c2X_cfg {} (.structRef "Bar") true "M" with
  | some (.ok (_, st)) => st
  | _ => {}

def c2X_st2 : RegState :=
  match registrySchema 10 c2X_cfg c2X_st1 (.structRef "Foo") true "x" with
  | some (.ok (_, st)) => st
  | _ => {}

/-- C2 is false as stated: after `Bar` has been registered under `M`
and `Foo` under `N`, requesting `Bar` again with hint `N` maps it to
the name registered for the distinct type `Foo`, and the registry
silently returns a reference to the schema of `Foo` instead of
panicking — the collision check only fires for types not yet seen. -/
theorem C2_collision_counterexample :
    lookupStr c2X_st2.types "N" = some (.structRef "Foo") ∧
    (GoType.structRef "Foo" ≠ GoType.structRef "Bar") ∧
    registrySchema 10 c2X_cfg c2X_st2 (.structRef "Bar") true "N" =
      some (.ok (some (refOnly ("#/components/schemas/" ++ "N")), c2X_st2)) :=
  ⟨rfl, by decide, rfl⟩

/-- C2 amended: the fatal duplicate-name panic is guaranteed whenever
the requesting type itself has not yet been seen by the registry; a
type already seen under another name can silently obtain the colliding
registration (see the counterexample). -/
theorem C2_collision_panics (n : Nat) (cfg : RegCfg) (st : RegState)
    (t0 : GoType) (allowRef : Bool) (hint : String)
    (halias : lookupAlias st.aliases t0.derefT = none)
    (hgr : getsRefFor cfg.env t0.derefT = true)
    (hlook : (lookupStr st.schemas (cfg.namer (origOf t0) hint)).isSome)
    (hseen : t0.derefT ∉ st.seen) :
    registrySchema (n + 1) cfg st t0 allowRef hint =
      some (.error (.dupName (cfg.namer (origOf t0) hint))) := by
  obtain ⟨sStored, hs⟩ := Option.isSome_iff_exists.mp hlook
  exact registrySchema_dupName n cfg st t0 allowRef hint sStored halias hgr hs hseen

/-- C2 witness state: `N` is registered for `Foo`; `Bar`, never seen,
is requested under a naming strategy mapping everything to `N`. -/
def c2W_st : RegState :=
  { schemas := [("N", some emptySchema)]
    types := [("N", .structRef "Foo")]
    seen := [.structRef "Foo"] }

def c2W_cfg : RegCfg :=
  { namer := fun _ _ => "N", env := [("Foo", {}), ("Bar", {})] }

/-- C2 witness: the amended theorem at the concrete collision. -/
theorem C2_collision_panics_witness :
    registrySchema 3 c2W_cfg c2W_st (.structRef "Bar") true "h" =
      some (.error (.dupName "N")) :=
  C2_collision_panics 2 c2W_cfg c2W_st (.structRef "Bar") true "h" rfl rfl
    (by decide) (by decide)

/-! ## Claim C8 — reference schemas and the field merge -/

/-- C8 counterexample configuration, mirroring the nested-structs e2e
test: a `User` record whose `address` field is a ref-worthy `Address`
struct carrying a documentation title. -/
def c8X_cfg : RegCfg :=
  { env := [
      ("Address",
        { fields := [
            { meta := { structFieldName := "Street"
                        schemaMeta := some { paramName := "street", required := true } }
              type := .string }] }),
      ("User",
        { fields := [
            { meta := { structFieldName := "Address"
                        schemaMeta := some { paramName := "address", required := true }
                        openapiMeta := some { title := "User Address" } }
              type := .structRef "Address" }] })] }

def c8X_run : Option (Except GenError (Option Schema × RegState)) :=
  registrySchema 20 c8X_cfg {} (.structRef "User") true "User"

def c8X_userSchema : Schema :=
  match c8X_run with
  | some (.ok (_, st)) =>
    match lookupStr st.schemas "User" with
    | some (some s) => s
    | _ => emptySchema
  | _ => emptySchema

def c8X_field : Schema :=
  match lookupStr c8X_userSchema.properties "address" with
  | some s => s
  | _ => emptySchema

/-- C8 is false as stated: the field-metadata merge writes
documentation metadata onto a `$ref` field schema, so the generated
`address` property is a reference that also carries a title (exactly
what the e2e test of the repository expects). -/
theorem C8_ref_with_title_counterexample :
    c8X_field.core.ref = "#/components/schemas/Address" ∧
    c8X_field.core.title = "User Address" ∧
    c8X_field.core.title ≠ "" :=
  ⟨rfl, rfl, by decide⟩

/-- C8 amended: every schema the registry itself returns for a
ref-worthy type when refs are allowed is a bare reference carrying only
the ref field, both on the registered-name short-circuit and after a
fresh build; the merge of field metadata onto such a schema may add
further fields afterwards. -/
theorem C8_registry_ref_bare (n : Nat) (cfg : RegCfg) (st st2 : RegState)
    (t0 : GoType) (hint : String) (s : Schema)
    (halias : lookupAlias st.aliases t0.derefT = none)
    (hgr : getsRefFor cfg.env t0.derefT = true)
    (hres : registrySchema (n + 1) cfg st t0 true hint = some (.ok (some s, st2))) :
    s = refOnly (cfg.prefixStr ++ cfg.namer (origOf t0) hint) := by
  rw [registrySchema_succ, halias] at hres
  simp only [hgr] at hres
  cases hlook : lookupStr st.schemas (cfg.namer (origOf t0) hint) with
  | some sStored =>
    by_cases hseen : t0.derefT ∈ st.seen
    · simp only [hlook, if_pos hseen, if_true] at hres
      simp at hres
      exact hres.1.symm
    · simp only [hlook, if_neg hseen] at hres
      exact absurd hres (by simp)
  | none =>
    simp only [hlook] at hres
    split at hres
    · exact absurd hres (by simp)
    · exact absurd hres (by simp)
    · rename_i sOpt stM heq
      simp at hres
      exact hres.1.symm

/-- C8 witness configuration for the amended theorem: a plain struct
requested with refs allowed. -/
def c8W_cfg : RegCfg := { env := [("A", {})] }

def c8W_run : Option (Except GenError (Option Schema × RegState)) :=
  registrySchema 6 c8W_cfg {} (.structRef "A") true "h"

def c8W_s : Schema :=
  match c8W_run with
  | some (.ok (some s, _)) => s
  | _ => emptySchema

def c8W_st : RegState :=
  match c8W_run with
  | some (.ok (_, st)) => st
  | _ => {}

/-- C8 witness: the registry returns the bare reference for `A`. -/
theorem C8_registry_ref_bare_witness :
    c8W_s = refOnly ("#/components/schemas/" ++ "A") :=
  C8_registry_ref_bare 5 c8W_cfg {} c8W_st (.structRef "A") "h" c8W_s rfl rfl rfl

/-! ## Claim C1 — the self-referential struct family -/

inductive SimpleFieldType where
  | fBool
  | fInt
  | fString
  | fFloat
  | selfDirect
  | selfPtr
  deriving DecidableEq, Repr

def SimpleFieldType.isSelf : SimpleFieldType → Bool
  | .selfDirect => true
  | .selfPtr => true
  | _ => false

def SimpleFieldType.toGoType (sname : String) : SimpleFieldType → GoType
  | .fBool => .bool
  | .fInt => .int
  | .fString => .string
  | .fFloat => .float64
  | .selfDirect => .structRef sname
  | .selfPtr => .ptr (.structRef sname)

structure SimpleField where
  structFieldName : String := ""
  ft : SimpleFieldType
  schemaMeta : Option SchemaMeta := none
  openapiMeta : Option OpenAPIMeta := none
  validateMeta : Option VMeta := none
  defaultMeta : Option DefaultMeta := none
  deriving DecidableEq, Repr

def SimpleField.toFieldDef (sname : String) (f : SimpleField) : FieldDef :=
  { meta := { structFieldName := f.structFieldName
              schemaMeta := f.schemaMeta
              openapiMeta := f.openapiMeta
              validateMeta := f.validateMeta
              defaultMeta := f.defaultMeta }
    type := f.ft.toGoType sname }

def outNameOf (f : SimpleField) : String :=
  match f.schemaMeta with
  | some sm => sm.paramName
  | none => f.structFieldName

def selfEnv (sname : String) (fields : List SimpleField) : Env :=
  [(sname, { fields := fields.map (SimpleField.toFieldDef sname) })]

def selfCfg (p sname : String) (fields : List SimpleField) : RegCfg :=
  { prefixStr := p, namer := defaultSchemaNamer, env := selfEnv sname fields }

theorem outName_toFieldDef (sname : String) (f : SimpleField) :
    extractFieldName (f.toFieldDef sname).meta = outNameOf f := rfl

theorem registrySchema_scalar (n : Nat) (cfg : RegCfg)
    (sch : List (String × Option Schema)) (ty : List (String × GoType))
    (seen : List GoType) (hint : String) (t : GoType)
    (ht : t = .bool ∨ t = .int ∨ t = .string ∨ t = .float64) :
    ∃ base : Schema,
      registrySchema (n + 2) cfg ⟨sch, ty, seen, []⟩ t true hint =
        some (.ok (some base, ⟨sch, ty, seen, []⟩)) := by
  rcases ht with h | h | h | h <;> subst h
  · exact ⟨_, rfl⟩
  · exact ⟨_, rfl⟩
  · exact ⟨_, rfl⟩
  · exact ⟨_, rfl⟩

theorem ref_mergeFieldSchema (r : Bool) (fs0 : Schema) (m : FieldMetadata) :
    (mergeFieldSchema r fs0 m).core.ref = fs0.core.ref := by
  unfold mergeFieldSchema
  simp only
  rw [ref_applyDefaultValue]
  split
  · simp [ref_applyValidateMetadata, ref_applyOpenAPIMetadata]
  · rw [ref_applyValidateMetadata, ref_applyOpenAPIMetadata]

theorem applyDependentRequired_toFieldDef (s : Schema) (sname : String)
    (f : SimpleField) (nm : String) :
    applyDependentRequired s (f.toFieldDef sname).meta nm = s := rfl

theorem defaultSchemaNamer_named (t0 : GoType) (hint sname : String)
    (hname : goTypeName t0.derefT = sname) (hs : sname ≠ "") :
    defaultSchemaNamer t0 hint = mungeName sname := by
  unfold defaultSchemaNamer
  rw [hname]
  show mungeName (if sname = "" then hint else sname) = mungeName sname
  rw [if_neg hs]

/-- One registry call on a field of the family leaves the state intact
and returns a schema; for self fields that schema is the bare
reference to the enclosing name. -/
theorem registrySchema_c1Field (k : Nat) (cfg : RegCfg)
    (sch : List (String × Option Schema)) (ty : List (String × GoType))
    (seen : List GoType) (hint sname : String) (f : SimpleField)
    (hsname : sname ≠ "")
    (hnamer : cfg.namer = defaultSchemaNamer)
    (hgr : getsRefFor cfg.env (.structRef sname) = true)
    (hreg : (lookupStr sch (mungeName sname)).isSome)
    (hseen : (GoType.structRef sname) ∈ seen) :
    ∃ base : Schema,
      registrySchema (k + 2) cfg ⟨sch, ty, seen, []⟩ (f.ft.toGoType sname) true hint =
        some (.ok (some base, ⟨sch, ty, seen, []⟩)) ∧
      (f.ft.isSelf = true → base = refOnly (cfg.prefixStr ++ mungeName sname)) := by
  have hderef : ∀ t0 : GoType, t0 = .structRef sname ∨ t0 = .ptr (.structRef sname) →
      t0.derefT = .structRef sname := by
    rintro t0 (rfl | rfl) <;> rfl
  cases hft : f.ft with
  | fBool =>
    obtain ⟨base, hb⟩ := registrySchema_scalar k cfg sch ty seen hint .bool (by simp)
    exact ⟨base, hb, by simp [SimpleFieldType.isSelf]⟩
  | fInt =>
    obtain ⟨base, hb⟩ := registrySchema_scalar k cfg sch ty seen hint .int (by simp)
    exact ⟨base, hb, by simp [SimpleFieldType.isSelf]⟩
  | fString =>
    obtain ⟨base, hb⟩ := registrySchema_scalar k cfg sch ty seen hint .string (by simp)
    exact ⟨base, hb, by simp [SimpleFieldType.isSelf]⟩
  | fFloat =>
    obtain ⟨base, hb⟩ := registrySchema_scalar k cfg sch ty seen hint .float64 (by simp)
    exact ⟨base, hb, by simp [SimpleFieldType.isSelf]⟩
  | selfDirect =>
    obtain ⟨sStored, hsome⟩ := Option.isSome_iff_exists.mp hreg
    have hname : cfg.namer (origOf (.structRef sname)) hint = mungeName sname := by
      rw [hnamer]
      exact defaultSchemaNamer_named _ hint sname rfl hsname
    refine ⟨refOnly (cfg.prefixStr ++ mungeName sname), ?_, fun _ => rfl⟩
    have := registrySchema_registered_ref (k + 1) cfg ⟨sch, ty, seen, []⟩
      (.structRef sname) hint sStored rfl hgr (by rw [hname]; exact hsome) hseen
    rw [SimpleFieldType.toGoType]
    rw [this, hname]
  | selfPtr =>
    obtain ⟨sStored, hsome⟩ := Option.isSome_iff_exists.mp hreg
    have hname : cfg.namer (origOf (.ptr (.structRef sname))) hint = mungeName sname := by
      rw [hnamer]
      exact defaultSchemaNamer_named _ hint sname rfl hsname
    refine ⟨refOnly (cfg.prefixStr ++ mungeName sname), ?_, fun _ => rfl⟩
    have := registrySchema_registered_ref (k + 1) cfg ⟨sch, ty, seen, []⟩
      (.ptr (.structRef sname)) hint sStored rfl hgr (by rw [hname]; exact hsome) hseen
    rw [SimpleFieldType.toGoType]
    rw [this, hname]

/-- The field loop of the family: with the enclosing name
pre-registered and its type in the seen set, the loop terminates with
the state untouched, the object schema untouched, lookups outside the
field names preserved, and every self field recorded as a bare
reference (under unique output names). -/
theorem c1_loop (cfg : RegCfg) (sname : String)
    (hsname : sname ≠ "")
    (hnamer : cfg.namer = defaultSchemaNamer)
    (hgr : getsRefFor cfg.env (.structRef sname) = true) :
    ∀ (fields : List SimpleField) (n : Nat)
      (sch : List (String × Option Schema)) (ty : List (String × GoType))
      (seen : List GoType) (tname : String) (acc : FieldsAcc),
      (lookupStr sch (mungeName sname)).isSome →
      (GoType.structRef sname) ∈ seen →
      fields.length + 2 ≤ n →
      ∃ accF : FieldsAcc,
        processStructFields n cfg ⟨sch, ty, seen, []⟩ tname
            (fields.map (SimpleField.toFieldDef sname)) acc =
          some (.ok (accF, ⟨sch, ty, seen, []⟩)) ∧
        accF.s = acc.s ∧
        (∀ key : String, key ∉ fields.map outNameOf →
          lookupStr accF.props key = lookupStr acc.props key) ∧
        ((fields.map outNameOf).Nodup →
          ∀ f ∈ fields, f.ft.isSelf = true →
            ∃ s : Schema, lookupStr accF.props (outNameOf f) = some s ∧
              s.core.ref = cfg.prefixStr ++ mungeName sname) := by
  intro fields
  induction fields with
  | nil =>
    intro n sch ty seen tname acc hreg hseen hn
    obtain ⟨m, rfl⟩ : ∃ m, n = m + 1 := by
      cases n with
      | zero => omega
      | succ m => exact ⟨m, rfl⟩
    refine ⟨acc, ?_, rfl, fun key _ => rfl, fun _ f hf => absurd hf (by simp)⟩
    simp only [List.map_nil]
    exact processStructFields_nil m cfg ⟨sch, ty, seen, []⟩ tname acc
  | cons f rest ih =>
    intro n sch ty seen tname acc hreg hseen hn
    obtain ⟨m, rfl⟩ : ∃ m, n = m + 1 := by
      cases n with
      | zero => omega
      | succ m => exact ⟨m, rfl⟩
    have hm : rest.length + 2 ≤ m := by simp at hn; omega
    obtain ⟨k, rfl⟩ : ∃ k, m = k + 2 := by
      cases m with
      | zero => omega
      | succ m2 =>
        cases m2 with
        | zero => omega
        | succ k => exact ⟨k, rfl⟩
    simp only [List.map_cons]
    rw [processStructFields_cons]
    obtain ⟨base, hbase, hbaseRef⟩ := registrySchema_c1Field k cfg sch ty seen
      (tname ++ (f.toFieldDef sname).meta.structFieldName ++ "Struct") sname f
      hsname hnamer hgr hreg hseen
    have htype : (f.toFieldDef sname).type = f.ft.toGoType sname := rfl
    rw [htype, hbase]
    obtain ⟨accF, heq, hs, hpres, hselfs⟩ := ih (k + 2) sch ty seen tname
      (stepAcc acc (f.toFieldDef sname) base) hreg hseen hm
    refine ⟨accF, heq, ?_, ?_, ?_⟩
    · rw [hs]
      unfold stepAcc
      simp only
      rw [outName_toFieldDef, applyDependentRequired_toFieldDef]
    · intro key hkey
      have hk1 : key ∉ rest.map outNameOf := by
        intro hc
        exact hkey (by simp [hc])
      have hk2 : key ≠ outNameOf f := by
        intro hc
        exact hkey (by simp [hc])
      rw [hpres key hk1]
      unfold stepAcc
      simp only
      rw [outName_toFieldDef]
      exact lookupStr_cons_ne _ _ _ _ (fun hc => hk2 hc.symm)
    · intro hnodup g hg hgself
      have hnodupRest : (rest.map outNameOf).Nodup := by
        simp only [List.map_cons, List.nodup_cons] at hnodup
        exact hnodup.2
      rcases List.mem_cons.mp hg with rfl | hgRest
      · have hout : outNameOf g ∉ rest.map outNameOf := by
          simp only [List.map_cons, List.nodup_cons] at hnodup
          exact hnodup.1
        rw [hpres (outNameOf g) hout]
        unfold stepAcc
        simp only
        rw [outName_toFieldDef, lookupStr_cons_eq]
        refine ⟨_, rfl, ?_⟩
        rw [ref_mergeFieldSchema, hbaseRef hgself]
        rfl
      · exact hselfs hnodupRest g hgRest hgself

theorem properties_withProperties (s : Schema) (p : List (String × Schema)) :
    (s.withProperties p).properties = p := by cases s; rfl

theorem schemaFromType_succ (n : Nat) (cfg : RegCfg) (st : RegState) (t : GoType) :
    schemaFromType (n + 1) cfg st t =
      match providerSchema cfg.env t.derefT with
      | some ps => some (.ok (some ps, st))
      | none =>
        if hasTextUnmarshaler cfg.env t.derefT then
          some (.ok (some (.mk { typ := TypeString, nullable := some t.isPtr } none [] none none), st))
        else
          match schemaForSimpleType t.derefT t.isPtr with
          | some s => some (.ok (some s, st))
          | none =>
            match t.derefT with
            | .slice _ => schemaForSlice n cfg st t.derefT t.isPtr
            | .array _ _ => schemaForSlice n cfg st t.derefT t.isPtr
            | .mapOf elem =>
              match registrySchema n cfg st elem true (goTypeName t.derefT ++ "Value") with
              | none => none
              | some (.error e) => some (.error e)
              | some (.ok (vs, st2)) =>
                some (.ok (some (.mk { typ := TypeObject } none [] none vs), st2))
            | .structRef sn => schemaForStruct n cfg st sn
            | .time => schemaForStruct n cfg st "Time"
            | .iface => some (.ok (some emptySchema, st))
            | _ => some (.ok (none, st)) := rfl

theorem schemaForStruct_succ (n : Nat) (cfg : RegCfg) (st : RegState) (sn : String) :
    schemaForStruct (n + 1) cfg st sn =
      match lookupStr cfg.env sn with
      | none => some (.error (.structMeta sn))
      | some sdef =>
        match processStructFields n cfg st sn sdef.fields
            { s := .mk { typ := TypeObject } none [] none none } with
        | none => none
        | some (.error e) => some (.error e)
        | some (.ok (acc, st2)) =>
          match validateDependentRequired acc.s acc.props with
          | .error errs => some (.error (.depRequired errs))
          | .ok _ =>
            match applyStructLevelMetadata acc.s sdef with
            | none => some (.error .nilPointer)
            | some s2 =>
              some (.ok (some ((s2.withProperties acc.props).withCore
                { (s2.withProperties acc.props).core with
                  propertyNames := acc.propNames
                  required := acc.required
                  requiredMap := acc.requiredMap }), st2)) := rfl

theorem schemaForSimpleType_structRef (sn : String) (b : Bool) :
    schemaForSimpleType (.structRef sn) b = none := by
  simp [schemaForSimpleType, lookUpByKind]

theorem schemaFromType_structRef (n : Nat) (cfg : RegCfg) (st : RegState) (sn : String)
    (hprov : providerSchema cfg.env (.structRef sn) = none)
    (htext : hasTextUnmarshaler cfg.env (.structRef sn) = false) :
    schemaFromType (n + 1) cfg st (.structRef sn) = schemaForStruct n cfg st sn := by
  rw [schemaFromType_succ]
  simp only [GoType.derefT, hprov, htext, Bool.false_eq_true, if_false,
    schemaForSimpleType_structRef]

theorem lookupStr_selfEnv (sname : String) (fields : List SimpleField) :
    lookupStr (selfEnv sname fields) sname =
      some { fields := fields.map (SimpleField.toFieldDef sname) } := by
  simp [selfEnv, lookupStr]

theorem getsRefFor_selfEnv (sname : String) (fields : List SimpleField) :
    getsRefFor (selfEnv sname fields) (.structRef sname) = true := by
  simp [getsRefFor, selfEnv, hasSchemaProvider, hasTextUnmarshaler, lookupStr,
    GoType.kindIsStruct]

theorem providerSchema_selfEnv (sname : String) (fields : List SimpleField) :
    providerSchema (selfEnv sname fields) (.structRef sname) = none := by
  simp [providerSchema, selfEnv, lookupStr]

theorem hasTextUnmarshaler_selfEnv (sname : String) (fields : List SimpleField) :
    hasTextUnmarshaler (selfEnv sname fields) (.structRef sname) = false := by
  simp [hasTextUnmarshaler, selfEnv, lookupStr]

/-- The build path of `mapRegistry.Schema` on a cache miss for a
ref-worthy type: pre-register the placeholder, build, overwrite, and
return either the `$ref` or the built schema. -/
theorem registrySchema_build (n : Nat) (cfg : RegCfg) (st : RegState) (t0 : GoType)
    (allowRef : Bool) (hint : String) (sOpt : Option Schema) (st2 : RegState)
    (halias : lookupAlias st.aliases t0.derefT = none)
    (hgr : getsRefFor cfg.env t0.derefT = true)
    (hlook : lookupStr st.schemas (cfg.namer (origOf t0) hint) = none)
    (hbuild : schemaFromType n cfg
      { st with
        schemas := (cfg.namer (origOf t0) hint, some emptySchema) :: st.schemas
        types := (cfg.namer (origOf t0) hint, t0.derefT) :: st.types
        seen := t0.derefT :: st.seen } (origOf t0) = some (.ok (sOpt, st2))) :
    registrySchema (n + 1) cfg st t0 allowRef hint =
      if allowRef then
        some (.ok (some (refOnly (cfg.prefixStr ++ cfg.namer (origOf t0) hint)),
          { st2 with schemas := (cfg.namer (origOf t0) hint, sOpt) :: st2.schemas }))
      else
        some (.ok (sOpt, { st2 with schemas := (cfg.namer (origOf t0) hint, sOpt) :: st2.schemas })) := by
  rw [registrySchema_succ, halias]
  simp only [hgr, hlook, if_true]
  rw [hbuild]
  cases allowRef <;> simp

/-- C1: for every struct of the self-referential family (any mix of
scalar fields and fields whose type is the enclosing struct, directly
or through one pointer), `Registry.Schema` terminates within an
explicit fuel bound — the name is pre-registered before the body is
built, so the self-occurrences short-circuit — and each nested
self-occurrence in the registered schema is a `$ref` to the same
registered name as the enclosing schema. -/
theorem C1_recursive_schema_terminates
    (p sname hint : String) (fields : List SimpleField) (allowRef : Bool)
    (hsname : sname ≠ "")
    (hsentinel : ∀ f ∈ fields, f.structFieldName ≠ "_")
    (_hself : ∃ f ∈ fields, f.ft.isSelf = true)
    (hnodup : (fields.map outNameOf).Nodup) :
    ∃ (body : Schema) (stF : RegState),
      registrySchema (fields.length + 5) (selfCfg p sname fields) {} (.structRef sname)
          allowRef hint =
        some (.ok (some (if allowRef then refOnly (p ++ mungeName sname) else body), stF)) ∧
      lookupStr stF.schemas (mungeName sname) = some (some body) ∧
      ∀ f ∈ fields, f.ft.isSelf = true →
        ∃ s : Schema, lookupStr body.properties (outNameOf f) = some s ∧
          s.core.ref = p ++ mungeName sname := by
  have hgr : getsRefFor (selfCfg p sname fields).env (.structRef sname) = true :=
    getsRefFor_selfEnv sname fields
  have hnamerEq : (selfCfg p sname fields).namer = defaultSchemaNamer := rfl
  have hnameEq : (selfCfg p sname fields).namer (origOf (.structRef sname)) hint =
      mungeName sname := by
    rw [hnamerEq]
    exact defaultSchemaNamer_named _ hint sname rfl hsname
  have hnameEq2 : (selfCfg p sname fields).namer (.structRef sname) hint =
      mungeName sname := by
    rw [hnamerEq]
    exact defaultSchemaNamer_named _ hint sname rfl hsname
  have henv : (selfCfg p sname fields).env = selfEnv sname fields := rfl
  obtain ⟨accF, heqProc, hsAcc, _, hselfs⟩ :=
    c1_loop (selfCfg p sname fields) sname hsname hnamerEq hgr fields
      (fields.length + 2) [(mungeName sname, some emptySchema)]
      [(mungeName sname, .structRef sname)] [.structRef sname] sname
      { s := .mk { typ := TypeObject } none [] none none }
      (by rw [lookupStr_cons_eq]; rfl) (by simp) (le_refl _)
  have hval : validateDependentRequired accF.s accF.props = .ok () := by
    rw [hsAcc]; rfl
  have hfind : (fields.map (SimpleField.toFieldDef sname)).find?
      (fun fd => fd.meta.structFieldName = "_") = none := by
    rw [List.find?_eq_none]
    intro fd hfd
    obtain ⟨f, hf, rfl⟩ := List.mem_map.mp hfd
    simpa using hsentinel f hf
  have happly : applyStructLevelMetadata accF.s
      { fields := fields.map (SimpleField.toFieldDef sname) } = some accF.s := by
    unfold applyStructLevelMetadata
    rw [hfind]
  have hSFS : schemaForStruct (fields.length + 2 + 1) (selfCfg p sname fields)
      ⟨[(mungeName sname, some emptySchema)], [(mungeName sname, .structRef sname)],
        [.structRef sname], []⟩ sname =
      some (.ok (some ((accF.s.withProperties accF.props).withCore
        { (accF.s.withProperties accF.props).core with
          propertyNames := accF.propNames
          required := accF.required
          requiredMap := accF.requiredMap }),
        ⟨[(mungeName sname, some emptySchema)], [(mungeName sname, .structRef sname)],
          [.structRef sname], []⟩)) := by
    rw [schemaForStruct_succ, henv, lookupStr_selfEnv]
    simp only [heqProc, hval, happly]
  have hbuild : schemaFromType (fields.length + 3 + 1) (selfCfg p sname fields)
      { ({} : RegState) with
        schemas := ((selfCfg p sname fields).namer (origOf (.structRef sname)) hint,
          some emptySchema) :: ({} : RegState).schemas
        types := ((selfCfg p sname fields).namer (origOf (.structRef sname)) hint,
          (GoType.structRef sname).derefT) :: ({} : RegState).types
        seen := (GoType.structRef sname).derefT :: ({} : RegState).seen }
      (origOf (.structRef sname)) =
      some (.ok (some ((accF.s.withProperties accF.props).withCore
        { (accF.s.withProperties accF.props).core with
          propertyNames := accF.propNames
          required := accF.required
          requiredMap := accF.requiredMap }),
        ⟨[(mungeName sname, some emptySchema)], [(mungeName sname, .structRef sname)],
          [.structRef sname], []⟩)) := by
    rw [show origOf (.structRef sname) = .structRef sname from rfl,
      schemaFromType_structRef _ _ _ _ (providerSchema_selfEnv sname fields)
        (hasTextUnmarshaler_selfEnv sname fields)]
    rw [show (GoType.structRef sname).derefT = .structRef sname from rfl]
    simp only [hnameEq2]
    exact hSFS
  have hmain := registrySchema_build (fields.length + 4) (selfCfg p sname fields) {}
    (.structRef sname) allowRef hint
    (some ((accF.s.withProperties accF.props).withCore
      { (accF.s.withProperties accF.props).core with
        propertyNames := accF.propNames
        required := accF.required
        requiredMap := accF.requiredMap }))
    ⟨[(mungeName sname, some emptySchema)], [(mungeName sname, .structRef sname)],
      [.structRef sname], []⟩
    rfl hgr (by rw [hnameEq]; rfl) hbuild
  rw [hnameEq] at hmain
  refine ⟨((accF.s.withProperties accF.props).withCore
      { (accF.s.withProperties accF.props).core with
        propertyNames := accF.propNames
        required := accF.required
        requiredMap := accF.requiredMap }),
    ⟨(mungeName sname, some ((accF.s.withProperties accF.props).withCore
        { (accF.s.withProperties accF.props).core with
          propertyNames := accF.propNames
          required := accF.required
          requiredMap := accF.requiredMap })) :: [(mungeName sname, some emptySchema)],
      [(mungeName sname, .structRef sname)], [.structRef sname], []⟩, ?_, ?_, ?_⟩
  · cases allowRef
    · simpa using hmain
    · simpa using hmain
  · exact lookupStr_cons_eq _ _ _
  · intro f hf hself2
    obtain ⟨s, hs1, hs2⟩ := hselfs hnodup f hf hself2
    refine ⟨s, ?_, ?_⟩
    · rw [properties_withCore, properties_withProperties]
      exact hs1
    · rw [hs2]
      rfl

/-- C1 witness inputs: the recursive `Node` type of the e2e tests, a
struct whose `next` field is a pointer to the enclosing type. -/
def c1W_fields : List SimpleField :=
  [{ structFieldName := "Next", ft := .selfPtr, schemaMeta := some { paramName := "next" } }]

/-- C1 witness: the theorem at the concrete recursive `Node` type. -/
theorem C1_recursive_schema_terminates_witness :
    ∃ (body : Schema) (stF : RegState),
      registrySchema (c1W_fields.length + 5)
          (selfCfg "#/components/schemas/" "Node" c1W_fields) {} (.structRef "Node")
          true "hint" =
        some (.ok (some (if true then
          refOnly ("#/components/schemas/" ++ mungeName "Node")
        else body), stF)) ∧
      lookupStr stF.schemas (mungeName "Node") = some (some body) ∧
      ∀ f ∈ c1W_fields, f.ft.isSelf = true →
        ∃ s : Schema, lookupStr body.properties (outNameOf f) = some s ∧
          s.core.ref = "#/components/schemas/" ++ mungeName "Node" :=
  C1_recursive_schema_terminates "#/components/schemas/" "Node" "hint" c1W_fields true
    (by decide) (by decide)
    ⟨{ structFieldName := "Next", ft := .selfPtr, schemaMeta := some { paramName := "next" } },
      by simp [c1W_fields], rfl⟩
    (by decide)

end Zorya
